import Mathlib

/-!
# Verification of the libplist XML codec (`src/xplist.c`)

This file shallowly embeds the XML property-list codec of `src/xplist.c`:
the typed value tree (`plist_data_t` payload plus the generic `GNode` tree),
the encoder `node_to_xml`, the decoder `xml_to_node`, the base64 reflow
formatter `format_string`, and the entry points `plist_to_xml` /
`plist_from_xml`.

Modelling conventions:
* C byte strings (`char *` / `xmlChar *`) are `List Nat` of byte values;
  NUL-termination effects (`strlen` / `strdup`) are modelled by `cstr`,
  which truncates at the first 0 byte.
* The XML document model (libxml2) is embedded at the DOM level: an
  `XmlNode` is an element with a tag name and children, or a text node.
  `xmlNodeGetContent` is the concatenation of the text descendants.
  Text nodes carry the *unescaped* character data (libxml2 escapes
  predefined entities when serialising and resolves them when parsing),
  so DOM-level round trips correspond to serialise/parse round trips.
* External collaborators whose sources are outside this repository
  (libxml2, glib, libc) are modelled from their documented behaviour at
  the points this codec uses them; each such definition carries a doc
  comment saying what it models.
* Machine integers are `Nat`/`Int`; `double` payloads are modelled as `ℚ`
  with `%f` formatting modelled as round-to-nearest at 6 fractional digits.
-/

set_option maxHeartbeats 1000000

/-- A C byte string, as the list of its byte values (without the final NUL). -/
abbrev CStr := List Nat

/-- Truncation of a byte list at the first NUL byte: the bytes that C's
`strlen`/`strdup` actually see when handed a buffer holding these bytes. -/
def cstr (s : CStr) : CStr := s.takeWhile (fun b => b ≠ 0)

theorem cstr_eq_self {s : CStr} (h : 0 ∉ s) : cstr s = s := by
  induction s with
  | nil => rfl
  | cons b r ih =>
    simp only [List.mem_cons, not_or] at h
    have hb : b ≠ 0 := fun hb0 => h.1 hb0.symm
    have h1 := ih h.2
    simp only [cstr, List.takeWhile_cons] at h1 ⊢
    simp [hb, h1]
    exact fun x hx hx0 => h.2 (hx0 ▸ hx)

/-- C `isspace` on a byte (the ASCII whitespace class used by `strtoull`). -/
def isSpaceB (b : Nat) : Bool := b = 32 || (9 ≤ b && b ≤ 13)

/-- ASCII decimal digit test. -/
def isDigitB (b : Nat) : Bool := 48 ≤ b && b ≤ 57

/-- Value of byte `b` as a digit in base `base` (decimal digits and both
hexadecimal letter cases), or `none` when `b` is not a digit of that base. -/
def digitValIn (base b : Nat) : Option Nat :=
  let v : Option Nat :=
    if 48 ≤ b ∧ b ≤ 57 then some (b - 48)
    else if 97 ≤ b ∧ b ≤ 102 then some (b - 87)
    else if 65 ≤ b ∧ b ≤ 70 then some (b - 55)
    else none
  match v with
  | some d => if d < base then some d else none
  | none => none

/-- Digit-accumulation loop shared by the numeric parsers: consume digits of
`base` from the front of `s`, extending accumulator `acc`, and stop at the
first byte that is not a digit of `base`. -/
def parseNum (base : Nat) : CStr → Nat → Nat
  | [], acc => acc
  | b :: r, acc =>
    match digitValIn base b with
    | some d => parseNum base r (acc * base + d)
    | none => acc

theorem parseNum_nil (base acc : Nat) : parseNum base [] acc = acc := rfl

theorem parseNum_cons_invalid {base b : Nat} (h : digitValIn base b = none)
    (r : CStr) (acc : Nat) : parseNum base (b :: r) acc = acc := by
  simp [parseNum, h]

theorem parseNum_append {base : Nat} : ∀ (xs : CStr), (∀ b ∈ xs, (digitValIn base b).isSome) →
    ∀ (ys : CStr) (acc : Nat), parseNum base (xs ++ ys) acc = parseNum base ys (parseNum base xs acc)
  | [], _, ys, acc => rfl
  | b :: xs, h, ys, acc => by
    have hb : (digitValIn base b).isSome := h b (by simp)
    obtain ⟨d, hd⟩ := Option.isSome_iff_exists.mp hb
    simp only [List.cons_append, parseNum, hd]
    exact parseNum_append xs (fun x hx => h x (by simp [hx])) ys _

/-- Little-endian base-`base` digits of `n`, with explicit fuel (the loop a C
`printf` integer conversion performs; `fuel ≥ n` suffices). -/
def digitsLE (base : Nat) : Nat → Nat → List Nat
  | 0, _ => []
  | _ + 1, 0 => []
  | fuel + 1, n + 1 => (n + 1) % base :: digitsLE base fuel ((n + 1) / base)

theorem digitsLE_lt {base : Nat} (hb : 1 ≤ base) :
    ∀ fuel n, ∀ d ∈ digitsLE base fuel n, d < base
  | 0, _ => by simp [digitsLE]
  | fuel + 1, 0 => by simp [digitsLE]
  | fuel + 1, n + 1 => by
    intro d hd
    simp only [digitsLE, List.mem_cons] at hd
    rcases hd with rfl | hd
    · exact Nat.mod_lt _ (by omega)
    · exact digitsLE_lt hb fuel _ d hd

/-- Value of a little-endian digit list. -/
def ofDigitsLE (base : Nat) : List Nat → Nat
  | [] => 0
  | d :: r => d + base * ofDigitsLE base r

theorem ofDigitsLE_digitsLE {base : Nat} (hb : 2 ≤ base) :
    ∀ fuel n, n ≤ fuel → ofDigitsLE base (digitsLE base fuel n) = n
  | 0, n, h => by
    interval_cases n
    rfl
  | fuel + 1, 0, _ => rfl
  | fuel + 1, n + 1, h => by
    have hdiv : (n + 1) / base ≤ fuel := by
      have : (n + 1) / base < n + 1 := Nat.div_lt_self (by omega) (by omega)
      omega
    simp only [digitsLE, ofDigitsLE, ofDigitsLE_digitsLE hb fuel _ hdiv]
    exact Nat.mod_add_div (n + 1) base

theorem digitsLE_length {base : Nat} (hb : 2 ≤ base) :
    ∀ fuel k n, n < base ^ k → (digitsLE base fuel n).length ≤ k
  | 0, _, _, _ => by simp [digitsLE]
  | fuel + 1, k, 0, _ => by simp [digitsLE]
  | fuel + 1, k, n + 1, h => by
    have hk : k ≠ 0 := by
      intro hk0
      subst hk0
      simp at h
    obtain ⟨k', rfl⟩ : ∃ k', k = k' + 1 := ⟨k - 1, by omega⟩
    have hdiv : (n + 1) / base < base ^ k' := by
      rw [Nat.div_lt_iff_lt_mul (by omega)]
      calc n + 1 < base ^ (k' + 1) := h
        _ = base ^ k' * base := by rw [Nat.pow_succ]
    simpa [digitsLE, Nat.succ_le_succ_iff] using digitsLE_length hb fuel k' _ hdiv

theorem digitsLE_rev_head {base : Nat} (hb : 2 ≤ base) :
    ∀ fuel n, 0 < n → n ≤ fuel →
      ∃ d tl, (digitsLE base fuel n).reverse = d :: tl ∧ d ≠ 0 ∧ d < base
  | 0, n, hn, hf => by omega
  | fuel + 1, 0, hn, _ => by omega
  | fuel + 1, n + 1, _, hf => by
    by_cases hq : (n + 1) / base = 0
    · have hlt : n + 1 < base := by
        rcases Nat.lt_or_ge (n + 1) base with h' | h'
        · exact h'
        · have h1 : 1 ≤ (n + 1) / base := (Nat.one_le_div_iff (by omega)).mpr h'
          omega
      have htail : digitsLE base fuel ((n + 1) / base) = [] := by
        rw [hq]
        cases fuel <;> rfl
      refine ⟨(n + 1) % base, [], ?_, ?_, Nat.mod_lt _ (by omega)⟩
      · simp [digitsLE, htail]
      · rw [Nat.mod_eq_of_lt hlt]
        omega
    · have hq' : 0 < (n + 1) / base := Nat.pos_of_ne_zero hq
      have hfe : (n + 1) / base ≤ fuel := by
        have : (n + 1) / base < n + 1 := Nat.div_lt_self (by omega) (by omega)
        omega
      obtain ⟨d, tl, hrev, hd0, hdb⟩ := digitsLE_rev_head hb fuel _ hq' hfe
      refine ⟨d, tl ++ [(n + 1) % base], ?_, hd0, hdb⟩
      simp [digitsLE, hrev]

theorem parseNum_rev {base : Nat} (enc : Nat → Nat)
    (henc : ∀ d, d < base → digitValIn base (enc d) = some d) :
    ∀ (ds : List Nat), (∀ d ∈ ds, d < base) →
      ∀ a, parseNum base (ds.reverse.map enc) a = a * base ^ ds.length + ofDigitsLE base ds
  | [], _, a => by simp [ofDigitsLE, parseNum]
  | d :: tl, h, a => by
    have hd : d < base := h d (by simp)
    have htl : ∀ x ∈ tl, x < base := fun x hx => h x (by simp [hx])
    have hsome : ∀ b ∈ tl.reverse.map enc, (digitValIn base b).isSome := by
      intro b hb
      obtain ⟨x, hx, rfl⟩ := List.mem_map.mp hb
      rw [henc x (htl x (List.mem_reverse.mp hx))]
      rfl
    have hstep : ∀ acc, parseNum base [enc d] acc = acc * base + d := by
      intro acc
      simp [parseNum, henc d hd]
    calc parseNum base ((d :: tl).reverse.map enc) a
        = parseNum base (tl.reverse.map enc ++ [enc d]) a := by simp
      _ = parseNum base [enc d] (parseNum base (tl.reverse.map enc) a) :=
          parseNum_append _ hsome _ _
      _ = (a * base ^ tl.length + ofDigitsLE base tl) * base + d := by
          rw [parseNum_rev enc henc tl htl a, hstep]
      _ = a * base ^ (d :: tl).length + ofDigitsLE base (d :: tl) := by
          simp [ofDigitsLE, Nat.pow_succ]
          ring

/-- Decimal rendering of an unsigned integer: the digit string produced by
`g_strdup_printf("%llu", n)` (most significant digit first, `"0"` for zero,
no sign and no leading zeros). -/
def natDecimal (n : Nat) : CStr :=
  if n = 0 then [48] else (digitsLE 10 n n).reverse.map (fun d => 48 + d)

theorem natDecimal_mem {n : Nat} : ∀ b ∈ natDecimal n, 48 ≤ b ∧ b ≤ 57 := by
  intro b hb
  unfold natDecimal at hb
  by_cases h0 : n = 0
  · simp [h0] at hb
    omega
  · simp only [h0, if_false, List.mem_map, List.mem_reverse] at hb
    obtain ⟨d, hd, rfl⟩ := hb
    have : d < 10 := digitsLE_lt (by omega) n n d hd
    omega

theorem natDecimal_ne_nil {n : Nat} : natDecimal n ≠ [] := by
  unfold natDecimal
  by_cases h0 : n = 0
  · simp [h0]
  · simp only [h0, if_false]
    intro h
    have h2 : digitsLE 10 n n ≠ [] := by
      obtain ⟨f, rfl⟩ : ∃ f, n = f + 1 := ⟨n - 1, by omega⟩
      simp [digitsLE]
    simp only [List.map_eq_nil_iff, List.reverse_eq_nil_iff] at h
    exact h2 h

theorem natDecimal_parse (n : Nat) :
    parseNum 10 (natDecimal n) 0 = n := by
  unfold natDecimal
  by_cases h0 : n = 0
  · simp [h0, parseNum, digitValIn]
  · simp only [h0, if_false]
    have henc : ∀ d, d < 10 → digitValIn 10 (48 + d) = some d := by decide
    rw [parseNum_rev _ henc _ (digitsLE_lt (by omega) n n)]
    simp [ofDigitsLE_digitsLE (by omega : 2 ≤ 10) n n (Nat.le_refl n)]

theorem natDecimal_head_pos {n : Nat} (hn : 0 < n) :
    ∃ b tl, natDecimal n = b :: tl ∧ 49 ≤ b ∧ b ≤ 57 := by
  obtain ⟨d, tl, hrev, hd0, hdb⟩ := digitsLE_rev_head (by omega : 2 ≤ 10) n n hn (Nat.le_refl n)
  refine ⟨48 + d, tl.map (fun d => 48 + d), ?_, by omega, by omega⟩
  unfold natDecimal
  simp [Nat.pos_iff_ne_zero.mp hn, hrev]

theorem natDecimal_length_le {n k : Nat} (h : n < 10 ^ k) (hk : 1 ≤ k) :
    (natDecimal n).length ≤ k := by
  unfold natDecimal
  by_cases h0 : n = 0
  · simpa [h0] using hk
  · simp only [h0, if_false, List.length_map, List.length_reverse]
    exact digitsLE_length (by omega) n k n h

/-- Lowercase hexadecimal digit byte for a value below 16. -/
def hexChar (d : Nat) : Nat := if d < 10 then 48 + d else 87 + d

/-- Lowercase hexadecimal rendering of `n` (most significant digit first). -/
def natHex (n : Nat) : CStr :=
  if n = 0 then [48] else (digitsLE 16 n n).reverse.map hexChar

theorem natHex_parse (n : Nat) : parseNum 16 (natHex n) 0 = n := by
  unfold natHex
  by_cases h0 : n = 0
  · simp [h0, parseNum, digitValIn]
  · simp only [h0, if_false]
    have henc : ∀ d, d < 16 → digitValIn 16 (hexChar d) = some d := by decide
    rw [parseNum_rev _ henc _ (digitsLE_lt (by omega) n n)]
    simp [ofDigitsLE_digitsLE (by omega : 2 ≤ 16) n n (Nat.le_refl n)]

theorem natHex_head_isHex {n : Nat} :
    ∃ b tl, natHex n = b :: tl ∧ (digitValIn 16 b).isSome := by
  unfold natHex
  by_cases h0 : n = 0
  · exact ⟨48, [], by simp [h0], by decide⟩
  · obtain ⟨d, tl, hrev, _, hdb⟩ :=
      digitsLE_rev_head (by omega : 2 ≤ 16) n n (by omega) (Nat.le_refl n)
    refine ⟨hexChar d, tl.map hexChar, ?_, ?_⟩
    · simp [h0, hrev]
    · have : ∀ d, d < 16 → (digitValIn 16 (hexChar d)).isSome := by decide
      exact this d hdb

/-- Base-detecting unsigned 64-bit parse: the base-selection step of
`g_ascii_strtoull(nptr, NULL, 0)` after whitespace and sign handling
(leading `0x`/`0X` selects hexadecimal, a bare leading `0` selects octal,
otherwise decimal; the longest valid digit prefix is consumed). -/
def strtoullBody (s : CStr) : Nat :=
  match s with
  | 48 :: x :: r =>
    if x = 120 ∨ x = 88 then
      if (digitValIn 16 (r.headD 0)).isSome then parseNum 16 r 0 else 0
    else parseNum 8 (x :: r) 0
  | _ => parseNum 10 s 0

/-- Overflow clamp and sign application of `strtoull`: values that do not fit
in 64 bits come back as `G_MAXUINT64`, and a leading minus sign negates the
unsigned result modulo 2^64. -/
def strtoullClamp (neg : Bool) (v : Nat) : Nat :=
  if v ≥ 2 ^ 64 then 2 ^ 64 - 1 else if neg then (2 ^ 64 - v) % 2 ^ 64 else v

/-- Sign handling of `strtoull` (after whitespace has been skipped). -/
def strtoullFinish (s1 : CStr) : Nat :=
  if s1.head? = some 45 then strtoullClamp true (strtoullBody (s1.drop 1))
  else if s1.head? = some 43 then strtoullClamp false (strtoullBody (s1.drop 1))
  else strtoullClamp false (strtoullBody s1)

/-- Model of glib's `g_ascii_strtoull(nptr, NULL, 0)` as used by the decoder
(an external collaborator, modelled from the documented `strtoull` behaviour):
skip ASCII whitespace, accept an optional sign, auto-detect the base
(`strtoullBody`), consume the longest valid digit prefix, and clamp/negate
(`strtoullClamp`). -/
def g_ascii_strtoull (s : CStr) : Nat := strtoullFinish (s.dropWhile isSpaceB)

theorem strtoullBody_not48 {b : Nat} (hb : b ≠ 48) (tl : CStr) :
    strtoullBody (b :: tl) = parseNum 10 (b :: tl) 0 := by
  unfold strtoullBody
  split
  · rename_i heq
    injection heq with h1 _
    exact absurd h1 hb
  · rfl

theorem strtoull_natDecimal (n : Nat) (hn : n < 2 ^ 64) :
    g_ascii_strtoull (natDecimal n) = n := by
  by_cases h0 : n = 0
  · subst h0
    decide
  · obtain ⟨b, tl, hcons, hb1, hb2⟩ := natDecimal_head_pos (Nat.pos_of_ne_zero h0)
    have hparse := natDecimal_parse n
    rw [hcons] at hparse ⊢
    unfold g_ascii_strtoull
    have hspace : isSpaceB b = false := by
      unfold isSpaceB
      simp only [Bool.or_eq_false_iff, Bool.and_eq_false_iff, decide_eq_false_iff_not]
      omega
    rw [List.dropWhile_cons, if_neg (by simp [hspace])]
    unfold strtoullFinish
    rw [if_neg (by simp; omega), if_neg (by simp; omega)]
    rw [strtoullBody_not48 (by omega) tl, hparse]
    unfold strtoullClamp
    rw [if_neg (by omega)]
    rfl

theorem strtoull_hex (n : Nat) (hn : n < 2 ^ 64) :
    g_ascii_strtoull (48 :: 120 :: natHex n) = n := by
  obtain ⟨b, tl, hcons, hhex⟩ := natHex_head_isHex (n := n)
  have hparse := natHex_parse n
  unfold g_ascii_strtoull
  rw [List.dropWhile_cons, if_neg (by simp [isSpaceB])]
  unfold strtoullFinish
  rw [if_neg (by simp), if_neg (by simp)]
  have hbody : strtoullBody (48 :: 120 :: natHex n) = parseNum 16 (natHex n) 0 := by
    unfold strtoullBody
    rw [hcons]
    simp only [List.headD_cons, if_pos (Or.inl rfl), hhex, if_true]
    rw [← hcons]
    simp
  rw [hbody, hparse]
  unfold strtoullClamp
  rw [if_neg (by omega)]
  rfl

theorem strtoull_no_numeric_prefix {s : CStr} {b : Nat} {r : CStr}
    (hdrop : s.dropWhile isSpaceB = b :: r)
    (h45 : b ≠ 45) (h43 : b ≠ 43) (hdig : digitValIn 10 b = none) :
    g_ascii_strtoull s = 0 := by
  have h48 : b ≠ 48 := by
    intro hb
    subst hb
    simp [digitValIn] at hdig
  unfold g_ascii_strtoull
  rw [hdrop]
  unfold strtoullFinish
  rw [if_neg (by simp [h45]), if_neg (by simp [h43])]
  rw [strtoullBody_not48 h48 r, parseNum_cons_invalid hdig]
  rfl

/-- The reflow formatter `format_string(buf, cols, depth)` of `src/xplist.c`.
The C code allocates a zeroed buffer and writes, for `i = 0 .. nlines-1` with
`nlines = len/cols + 1` and `colw = depth + cols + 1`, a newline at offset
`i*colw`, `depth` tabs after it, and then `min(cols, len - i*cols)` bytes of
`buf` starting at `buf + i*cols`; finally one more newline and `depth` tabs
after the copied text.  Those writes are at consecutive offsets, so the
resulting C string is exactly the concatenation below. -/
def format_string (buf : CStr) (cols depth : Nat) : CStr :=
  ((List.range (buf.length / cols + 1)).map
    (fun i => 10 :: (List.replicate depth 9 ++ ((buf.drop (i * cols)).take cols)))).flatten
  ++ 10 :: List.replicate depth 9

theorem chunksJoin : ∀ (n : Nat) (cols : Nat) (s : CStr), s.length ≤ n * cols →
    ((List.range n).map (fun i => (s.drop (i * cols)).take cols)).flatten = s
  | 0, cols, s, h => by
    have : s = [] := List.eq_nil_of_length_eq_zero (by simpa using h)
    simp [this]
  | n + 1, cols, s, h => by
    rw [List.range_succ_eq_map]
    have hstep : ∀ i : Nat, (s.drop ((i + 1) * cols)).take cols
        = ((s.drop cols).drop (i * cols)).take cols := by
      intro i
      rw [List.drop_drop]
      congr 1
      ring
    have hlen : (s.drop cols).length ≤ n * cols := by
      rw [List.length_drop]
      have h2 : (n + 1) * cols = n * cols + cols := by ring
      omega
    have ih := chunksJoin n cols (s.drop cols) hlen
    simp only [List.map_cons, List.map_map, List.flatten_cons, Nat.zero_mul, List.drop_zero]
    have : (List.range n).map ((fun i => (s.drop (i * cols)).take cols) ∘ Nat.succ)
        = (List.range n).map (fun i => ((s.drop cols).drop (i * cols)).take cols) := by
      apply List.map_congr_left
      intro i _
      exact hstep i
    rw [this, ih, List.take_append_drop]

theorem format_string_spec (buf : CStr) (d : Nat) :
    ∃ chunks : List CStr,
      chunks.length = buf.length / 60 + 1 ∧
      chunks.flatten = buf ∧
      (∀ c ∈ chunks, c.length ≤ 60) ∧
      format_string buf 60 d
        = (chunks.map (fun c => 10 :: (List.replicate d 9 ++ c))).flatten
          ++ 10 :: List.replicate d 9 := by
  refine ⟨(List.range (buf.length / 60 + 1)).map (fun i => (buf.drop (i * 60)).take 60),
    by simp, ?_, ?_, ?_⟩
  · exact chunksJoin _ 60 buf (by omega)
  · intro c hc
    obtain ⟨i, _, rfl⟩ := List.mem_map.mp hc
    simpa using List.length_take_le 60 _
  · simp [format_string, List.map_map]
    rfl

theorem filter_replicate_neg {p : Nat → Bool} {a : Nat} (hp : p a = false) :
    ∀ n, (List.replicate n a).filter p = []
  | 0 => rfl
  | n + 1 => by
    simp [List.replicate_succ, List.filter_cons, hp, filter_replicate_neg hp n]

theorem filter_join (p : Nat → Bool) :
    ∀ L : List CStr, (L.flatten).filter p = (L.map (fun l => l.filter p)).flatten
  | [] => rfl
  | l :: L => by
    simp [List.flatten_cons, List.filter_append, filter_join p L]

theorem filter_format_string {p : Nat → Bool} (hp10 : p 10 = false) (hp9 : p 9 = false)
    {buf : CStr} (hall : ∀ b ∈ buf, p b = true) (d : Nat) :
    (format_string buf 60 d).filter p = buf := by
  obtain ⟨chunks, _, hjoin, _, heq⟩ := format_string_spec buf d
  rw [heq, List.filter_append, filter_join]
  have htail : (10 :: List.replicate d 9).filter p = [] := by
    simp [List.filter_cons, hp10, filter_replicate_neg hp9 d]
  have hline : ∀ c ∈ chunks, (10 :: (List.replicate d 9 ++ c)).filter p = c := by
    intro c hc
    have hsub : ∀ b ∈ c, p b = true := by
      intro b hb
      exact hall b (hjoin ▸ List.mem_flatten.mpr ⟨c, hc, hb⟩)
    simp [List.filter_cons, hp10, List.filter_append, filter_replicate_neg hp9 d,
      List.filter_eq_self.mpr hsub]
  have : (chunks.map (fun c => 10 :: (List.replicate d 9 ++ c))).map (fun l => l.filter p)
      = chunks := by
    rw [List.map_map]
    calc chunks.map ((fun l => l.filter p) ∘ (fun c => 10 :: (List.replicate d 9 ++ c)))
        = chunks.map (fun c => c) := List.map_congr_left (fun c hc => hline c hc)
      _ = chunks := by simp
  rw [this, hjoin, htail, List.append_nil]

theorem mem_format_string {buf : CStr} {cols d b : Nat}
    (hb : b ∈ format_string buf cols d) : b = 10 ∨ b = 9 ∨ b ∈ buf := by
  unfold format_string at hb
  rw [List.mem_append] at hb
  rcases hb with hb | hb
  · obtain ⟨l, hl, hbl⟩ := List.mem_flatten.mp hb
    obtain ⟨i, _, rfl⟩ := List.mem_map.mp hl
    rcases List.mem_cons.mp hbl with rfl | hbl
    · exact Or.inl rfl
    rcases List.mem_append.mp hbl with hbl | hbl
    · exact Or.inr (Or.inl (List.eq_of_mem_replicate hbl))
    · exact Or.inr (Or.inr (List.drop_subset _ _ (List.take_subset _ _ hbl)))
  · rcases List.mem_cons.mp hb with rfl | hb
    · exact Or.inl rfl
    · exact Or.inr (Or.inl (List.eq_of_mem_replicate hb))

/-- Base64 alphabet byte for a 6-bit value (the MIME alphabet used by glib). -/
def b64Char (n : Nat) : Nat :=
  if n < 26 then 65 + n
  else if n < 52 then 97 + (n - 26)
  else if n < 62 then 48 + (n - 52)
  else if n = 62 then 43
  else 47

/-- Model of glib's `g_base64_encode` (an external collaborator): standard
base64 with `=` padding and no line breaks, three input bytes per four output
characters. -/
def g_base64_encode : List Nat → CStr
  | b1 :: b2 :: b3 :: r =>
    b64Char (b1 / 4) :: b64Char ((b1 % 4) * 16 + b2 / 16) ::
      b64Char ((b2 % 16) * 4 + b3 / 64) :: b64Char (b3 % 64) :: g_base64_encode r
  | [b1, b2] => [b64Char (b1 / 4), b64Char ((b1 % 4) * 16 + b2 / 16), b64Char ((b2 % 16) * 4), 61]
  | [b1] => [b64Char (b1 / 4), b64Char ((b1 % 4) * 16), 61, 61]
  | [] => []

/-- Decode table of glib's base64 decoder (`mime_base64_rank`): alphabet
characters map to their 6-bit value, `=` maps to 0, and every other byte is
invalid (`none`, rank `0xff`) and is skipped by the decoder. -/
def b64Rank (b : Nat) : Option Nat :=
  if 65 ≤ b ∧ b ≤ 90 then some (b - 65)
  else if 97 ≤ b ∧ b ≤ 122 then some (b - 71)
  else if 48 ≤ b ∧ b ≤ 57 then some (b + 4)
  else if b = 43 then some 62
  else if b = 47 then some 63
  else if b = 61 then some 0
  else none

/-- Quad-processing loop of glib's `g_base64_decode_step`, applied after
invalid-rank bytes have been skipped: every four ranked characters produce up
to three bytes, where a `=` in the third or fourth position suppresses the
corresponding output byte; a trailing group of fewer than four ranked
characters produces nothing. -/
def b64DecodeQuads : CStr → List Nat
  | a :: b :: c :: d :: r =>
    let v := (((b64Rank a).getD 0 * 64 + (b64Rank b).getD 0) * 64
      + (b64Rank c).getD 0) * 64 + (b64Rank d).getD 0
    (v / 65536 :: (if c = 61 then [] else [v / 256 % 256])
      ++ (if d = 61 then [] else [v % 256])) ++ b64DecodeQuads r
  | _ => []

/-- Model of glib's `g_base64_decode` (an external collaborator): bytes whose
rank is invalid — including all whitespace — are skipped, then complete quads
are decoded. -/
def g_base64_decode (s : CStr) : List Nat :=
  b64DecodeQuads (s.filter (fun b => (b64Rank b).isSome))

theorem b64Rank_b64Char : ∀ n, n < 64 → b64Rank (b64Char n) = some n := by decide

theorem b64Char_isSome : ∀ n, n < 64 → (b64Rank (b64Char n)).isSome = true := by decide

theorem b64Char_ne_61 : ∀ n, n < 64 → b64Char n ≠ 61 := by decide

theorem mem_b64_encode_ranked :
    ∀ l : List Nat, (∀ b ∈ l, b < 256) → ∀ x ∈ g_base64_encode l, (b64Rank x).isSome = true
  | [], _, x, hx => by simp [g_base64_encode] at hx
  | [b1], h, x, hx => by
    have hb1 : b1 < 256 := h b1 (by simp)
    simp only [g_base64_encode, List.mem_cons, List.not_mem_nil, or_false] at hx
    rcases hx with rfl | rfl | rfl | rfl
    · exact b64Char_isSome _ (by omega)
    · exact b64Char_isSome _ (by omega)
    · decide
    · decide
  | [b1, b2], h, x, hx => by
    have hb1 : b1 < 256 := h b1 (by simp)
    have hb2 : b2 < 256 := h b2 (by simp)
    simp only [g_base64_encode, List.mem_cons, List.not_mem_nil, or_false] at hx
    rcases hx with rfl | rfl | rfl | rfl
    · exact b64Char_isSome _ (by omega)
    · exact b64Char_isSome _ (by omega)
    · exact b64Char_isSome _ (by omega)
    · decide
  | b1 :: b2 :: b3 :: r, h, x, hx => by
    have hb1 : b1 < 256 := h b1 (by simp)
    have hb2 : b2 < 256 := h b2 (by simp)
    have hb3 : b3 < 256 := h b3 (by simp)
    simp only [g_base64_encode, List.mem_cons] at hx
    rcases hx with rfl | rfl | rfl | rfl | hx
    · exact b64Char_isSome _ (by omega)
    · exact b64Char_isSome _ (by omega)
    · exact b64Char_isSome _ (by omega)
    · exact b64Char_isSome _ (by omega)
    · exact mem_b64_encode_ranked r (fun b hb => h b (by simp [hb])) x hx

theorem b64_decode_encode :
    ∀ l : List Nat, (∀ b ∈ l, b < 256) → b64DecodeQuads (g_base64_encode l) = l
  | [], _ => rfl
  | [b1], h => by
    have hb1 : b1 < 256 := h b1 (by simp)
    show b64DecodeQuads [b64Char (b1 / 4), b64Char ((b1 % 4) * 16), 61, 61] = [b1]
    have h1 := b64Rank_b64Char (b1 / 4) (by omega)
    have h2 := b64Rank_b64Char ((b1 % 4) * 16) (by omega)
    have hne1 := b64Char_ne_61 (b1 / 4) (by omega)
    simp only [b64DecodeQuads, h1, h2, Option.getD_some, if_pos rfl]
    simp [b64Rank]
    omega
  | [b1, b2], h => by
    have hb1 : b1 < 256 := h b1 (by simp)
    have hb2 : b2 < 256 := h b2 (by simp)
    show b64DecodeQuads
      [b64Char (b1 / 4), b64Char ((b1 % 4) * 16 + b2 / 16), b64Char ((b2 % 16) * 4), 61]
      = [b1, b2]
    have h1 := b64Rank_b64Char (b1 / 4) (by omega)
    have h2 := b64Rank_b64Char ((b1 % 4) * 16 + b2 / 16) (by omega)
    have h3 := b64Rank_b64Char ((b2 % 16) * 4) (by omega)
    have hne3 := b64Char_ne_61 ((b2 % 16) * 4) (by omega)
    simp only [b64DecodeQuads, h1, h2, h3, Option.getD_some, if_pos rfl, if_neg hne3]
    simp [b64Rank]
    omega
  | b1 :: b2 :: b3 :: r, h => by
    have hb1 : b1 < 256 := h b1 (by simp)
    have hb2 : b2 < 256 := h b2 (by simp)
    have hb3 : b3 < 256 := h b3 (by simp)
    have ih := b64_decode_encode r (fun b hb => h b (by simp [hb]))
    show b64DecodeQuads (b64Char (b1 / 4) :: b64Char ((b1 % 4) * 16 + b2 / 16) ::
      b64Char ((b2 % 16) * 4 + b3 / 64) :: b64Char (b3 % 64) :: g_base64_encode r)
      = b1 :: b2 :: b3 :: r
    have h1 := b64Rank_b64Char (b1 / 4) (by omega)
    have h2 := b64Rank_b64Char ((b1 % 4) * 16 + b2 / 16) (by omega)
    have h3 := b64Rank_b64Char ((b2 % 16) * 4 + b3 / 64) (by omega)
    have h4 := b64Rank_b64Char (b3 % 64) (by omega)
    have hne3 := b64Char_ne_61 ((b2 % 16) * 4 + b3 / 64) (by omega)
    have hne4 := b64Char_ne_61 (b3 % 64) (by omega)
    simp only [b64DecodeQuads, h1, h2, h3, h4, Option.getD_some, if_neg hne3, if_neg hne4, ih]
    have e1 : (((b1 / 4 * 64 + (b1 % 4 * 16 + b2 / 16)) * 64 + (b2 % 16 * 4 + b3 / 64)) * 64
        + b3 % 64) / 65536 = b1 := by omega
    have e2 : (((b1 / 4 * 64 + (b1 % 4 * 16 + b2 / 16)) * 64 + (b2 % 16 * 4 + b3 / 64)) * 64
        + b3 % 64) / 256 % 256 = b2 := by omega
    have e3 : (((b1 / 4 * 64 + (b1 % 4 * 16 + b2 / 16)) * 64 + (b2 % 16 * 4 + b3 / 64)) * 64
        + b3 % 64) % 256 = b3 := by omega
    simp [e1, e2, e3]

theorem g_base64_roundtrip (l : List Nat) (h : ∀ b ∈ l, b < 256) :
    g_base64_decode (g_base64_encode l) = l := by
  unfold g_base64_decode
  rw [List.filter_eq_self.mpr (mem_b64_encode_ranked l h), b64_decode_encode l h]

theorem g_base64_encode_ne_nil : ∀ (l : List Nat), l ≠ [] → g_base64_encode l ≠ []
  | [], h => absurd rfl h
  | [b1], _ => by simp [g_base64_encode]
  | [b1, b2], _ => by simp [g_base64_encode]
  | b1 :: b2 :: b3 :: r, _ => by simp [g_base64_encode]

/-- UTF-8 continuation byte test (`10xxxxxx`). -/
def isContB (b : Nat) : Bool := 128 ≤ b && b ≤ 191

/-- State machine for structural UTF-8 validity: the first argument is the
number of continuation bytes still expected. -/
def utf8ValidAux : Nat → List Nat → Bool
  | 0, [] => true
  | _ + 1, [] => false
  | 0, b :: r =>
    if b ≤ 127 then utf8ValidAux 0 r
    else if 194 ≤ b && b ≤ 223 then utf8ValidAux 1 r
    else if 224 ≤ b && b ≤ 239 then utf8ValidAux 2 r
    else if 240 ≤ b && b ≤ 244 then utf8ValidAux 3 r
    else false
  | k + 1, b :: r => isContB b && utf8ValidAux k r

/-- Structural UTF-8 validity of a byte sequence: every byte is ASCII or a
lead byte (`C2..DF`, `E0..EF`, `F0..F4`) followed by the right number of
continuation bytes.  Overlong/surrogate refinements are omitted, so this is a
superset of valid UTF-8 — using it as a hypothesis only strengthens theorems. -/
def utf8Valid (s : List Nat) : Bool := utf8ValidAux 0 s

/-- The character encodings libxml2's `xmlDetectCharEncoding` can report at
the call sites in this codec. -/
inductive XmlCharEnc where
  | XML_CHAR_ENCODING_NONE
  | XML_CHAR_ENCODING_UTF8
  | XML_CHAR_ENCODING_UTF16LE
  | XML_CHAR_ENCODING_UTF16BE
  | XML_CHAR_ENCODING_UCS4LE
  | XML_CHAR_ENCODING_UCS4BE
  | XML_CHAR_ENCODING_UCS4_2143
  | XML_CHAR_ENCODING_UCS4_3412
  | XML_CHAR_ENCODING_EBCDIC
  | XML_CHAR_ENCODING_ASCII
deriving DecidableEq

open XmlCharEnc

/-- Model of libxml2's `xmlDetectCharEncoding(in, len)` (an external
collaborator): inspect the first four (then three, then two) bytes for
byte-order marks and encoded `<?xm` signatures, in the order the C code
checks them; report `NONE` when nothing matches.  A `bs.take k = pattern`
test is exactly the C's `len >= k` bounds check plus the byte comparisons. -/
def xmlDetectCharEncoding (bs : CStr) : XmlCharEnc :=
  if bs.take 4 = [0, 0, 0, 60] then XML_CHAR_ENCODING_UCS4BE
  else if bs.take 4 = [60, 0, 0, 0] then XML_CHAR_ENCODING_UCS4LE
  else if bs.take 4 = [0, 0, 60, 0] then XML_CHAR_ENCODING_UCS4_2143
  else if bs.take 4 = [0, 60, 0, 0] then XML_CHAR_ENCODING_UCS4_3412
  else if bs.take 4 = [76, 111, 167, 148] then XML_CHAR_ENCODING_EBCDIC
  else if bs.take 4 = [60, 63, 120, 109] then XML_CHAR_ENCODING_UTF8
  else if bs.take 4 = [0, 60, 0, 63] then XML_CHAR_ENCODING_UTF16BE
  else if bs.take 4 = [60, 0, 63, 0] then XML_CHAR_ENCODING_UTF16LE
  else if bs.take 3 = [239, 187, 191] then XML_CHAR_ENCODING_UTF8
  else if bs.take 2 = [254, 255] then XML_CHAR_ENCODING_UTF16BE
  else if bs.take 2 = [255, 254] then XML_CHAR_ENCODING_UTF16LE
  else XML_CHAR_ENCODING_NONE

theorem detect_utf8_or_none {bs : CStr} (h : utf8Valid bs = true) (h0 : 0 ∉ bs) :
    xmlDetectCharEncoding bs = XML_CHAR_ENCODING_UTF8 ∨
      xmlDetectCharEncoding bs = XML_CHAR_ENCODING_NONE := by
  have hz : ∀ (k : Nat) (l : CStr), bs.take k = l → 0 ∈ l → False := by
    intro k l hl hmem
    exact h0 (List.take_subset k bs (hl ▸ hmem))
  have hshape : ∀ (k : Nat) (l : CStr), bs.take k = l → bs = l ++ bs.drop k := by
    intro k l hl
    rw [← hl, List.take_append_drop]
  have hstep : ∀ b tl, b ≤ 127 → utf8Valid (b :: tl) = utf8Valid tl := by
    intro b tl hb
    simp [utf8Valid, utf8ValidAux, hb]
  have h167 : ∀ tl, utf8Valid (167 :: tl) = false := by
    intro tl
    simp [utf8Valid, utf8ValidAux]
  have h254 : ∀ tl, utf8Valid (254 :: tl) = false := by
    intro tl
    simp [utf8Valid, utf8ValidAux]
  have h255 : ∀ tl, utf8Valid (255 :: tl) = false := by
    intro tl
    simp [utf8Valid, utf8ValidAux]
  have hc5 : bs.take 4 ≠ [76, 111, 167, 148] := by
    intro he
    have hb := hshape _ _ he
    rw [hb] at h
    rw [List.cons_append, List.cons_append, List.cons_append, List.cons_append,
      List.nil_append, hstep 76 _ (by norm_num), hstep 111 _ (by norm_num), h167] at h
    exact absurd h (by decide)
  have hc10 : bs.take 2 ≠ [254, 255] := by
    intro he
    have hb := hshape _ _ he
    rw [hb] at h
    rw [List.cons_append, List.cons_append, List.nil_append, h254] at h
    exact absurd h (by decide)
  have hc11 : bs.take 2 ≠ [255, 254] := by
    intro he
    have hb := hshape _ _ he
    rw [hb] at h
    rw [List.cons_append, List.cons_append, List.nil_append, h255] at h
    exact absurd h (by decide)
  unfold xmlDetectCharEncoding
  rw [if_neg (fun he => hz _ _ he (by decide)),
    if_neg (fun he => hz _ _ he (by decide)),
    if_neg (fun he => hz _ _ he (by decide)),
    if_neg (fun he => hz _ _ he (by decide)),
    if_neg hc5]
  by_cases h6 : bs.take 4 = [60, 63, 120, 109]
  · rw [if_pos h6]
    exact Or.inl rfl
  · rw [if_neg h6,
      if_neg (fun he => hz _ _ he (by decide)),
      if_neg (fun he => hz _ _ he (by decide))]
    by_cases h9 : bs.take 3 = [239, 187, 191]
    · rw [if_pos h9]
      exact Or.inl rfl
    · rw [if_neg h9, if_neg hc10, if_neg hc11]
      exact Or.inr rfl

/-- One pass of predefined-entity substitution with explicit fuel (each step
consumes at least one input byte, so `fuel = s.length` suffices; structural
recursion on the fuel keeps the definition kernel-computable). -/
def substEntitiesF : Nat → CStr → CStr
  | 0, s => s
  | _ + 1, [] => []
  | fuel + 1, b :: r =>
    if b = 38 then
      if r.take 4 = [97, 109, 112, 59] then 38 :: substEntitiesF fuel (r.drop 4)
      else if r.take 3 = [108, 116, 59] then 60 :: substEntitiesF fuel (r.drop 3)
      else if r.take 3 = [103, 116, 59] then 62 :: substEntitiesF fuel (r.drop 3)
      else if r.take 5 = [97, 112, 111, 115, 59] then 39 :: substEntitiesF fuel (r.drop 5)
      else if r.take 5 = [113, 117, 111, 116, 59] then 34 :: substEntitiesF fuel (r.drop 5)
      else 38 :: substEntitiesF fuel r
    else b :: substEntitiesF fuel r

/-- Modelled from the spec: the external XML document model's treatment of
element content handed to `xmlNewChild` (spec §1 lists entity-escaping
primitives as external collaborators).  libxml2's `xmlStringGetNodeList`
parses the string as XML text, substituting the five predefined entity
references `&amp; &lt; &gt; &apos; &quot;`; a `&` that does not start a
recognised reference is kept literally (no theorem below depends on that
arm). -/
def substEntities (s : CStr) : CStr := substEntitiesF s.length s

theorem substEntitiesF_id {fuel : Nat} : ∀ {s : CStr}, 38 ∉ s → substEntitiesF fuel s = s := by
  induction fuel with
  | zero => intro s _; rfl
  | succ fuel ih =>
    intro s hs
    match s with
    | [] => rfl
    | b :: r =>
      simp only [List.mem_cons, not_or] at hs
      have hb : b ≠ 38 := fun h => hs.1 h.symm
      simp only [substEntitiesF, if_neg hb]
      rw [ih hs.2]

theorem substEntities_id {s : CStr} (h : 38 ∉ s) : substEntities s = s :=
  substEntitiesF_id h

theorem takeWhile_dropWhile_append {p : Nat → Bool} :
    ∀ (xs : CStr), (∀ x ∈ xs, p x = true) → ∀ (y : Nat), p y = false → ∀ ys,
      ((xs ++ y :: ys).takeWhile p = xs) ∧ ((xs ++ y :: ys).dropWhile p = y :: ys)
  | [], _, y, hy, ys => by
    simp [List.takeWhile_cons, List.dropWhile_cons, hy]
  | x :: xs, h, y, hy, ys => by
    have hx : p x = true := h x (by simp)
    have ih := takeWhile_dropWhile_append xs (fun a ha => h a (by simp [ha])) y hy ys
    simp only [List.cons_append, List.takeWhile_cons, List.dropWhile_cons, hx, if_true]
    exact ⟨by rw [ih.1], by rw [ih.2]⟩

theorem takeWhile_all {p : Nat → Bool} :
    ∀ (xs : CStr), (∀ x ∈ xs, p x = true) → xs.takeWhile p = xs
  | [], _ => rfl
  | x :: xs, h => by
    simp only [List.takeWhile_cons, h x (by simp), if_true]
    rw [takeWhile_all xs (fun a ha => h a (by simp [ha]))]

theorem natDecimal_isDigit {n : Nat} : ∀ b ∈ natDecimal n, isDigitB b = true := by
  intro b hb
  have := natDecimal_mem b hb
  simp [isDigitB]
  omega

theorem parseNum_zeros : ∀ k, parseNum 10 (List.replicate k 48 ++ natDecimal n) 0 = n := by
  intro k
  induction k with
  | zero => simpa using natDecimal_parse n
  | succ k ih =>
    have h48 : digitValIn 10 48 = some 0 := by decide
    simp only [List.replicate_succ, List.cons_append, parseNum, h48]
    simpa using ih

/-- Zero-padded six-digit fractional field of `%f`. -/
def fracPad6 (m : Nat) : CStr := List.replicate (6 - (natDecimal m).length) 48 ++ natDecimal m

/-- Model of `g_strdup_printf("%f", x)` (an external collaborator) on the ℚ
model of the `double` payload: fixed-point rendering with exactly six digits
after the decimal point, the value rounded to the nearest multiple of 10⁻⁶
(ties away from zero), and a minus sign for negative values. -/
def printfF (q : ℚ) : CStr :=
  let m : Nat := (Int.floor (|q| * 1000000 + 1 / 2)).toNat
  (if q < 0 then [45] else []) ++ natDecimal (m / 1000000) ++ 46 :: fracPad6 (m % 1000000)

/-- Fractional part handling of `strtod`: a `.` followed by digits. -/
def atofFrac (rest : CStr) : ℚ :=
  if rest.head? = some 46 then
    (parseNum 10 ((rest.drop 1).takeWhile isDigitB) 0 : ℚ)
      / 10 ^ ((rest.drop 1).takeWhile isDigitB).length
  else 0

/-- Unsigned decimal body of `strtod`: integer digits, then optional
fraction. -/
def atofBody (s2 : CStr) : ℚ :=
  (parseNum 10 (s2.takeWhile isDigitB) 0 : ℚ) + atofFrac (s2.dropWhile isDigitB)

/-- Model of libc `atof` (an external collaborator) on the decimal
fixed-point forms this codec emits: optional whitespace, optional sign,
integer digits, optional `.` plus fraction digits.  Exponent, hexadecimal,
and `inf`/`nan` forms are not modelled; no theorem below depends on them. -/
def atofModel (s : CStr) : ℚ :=
  if (s.dropWhile isSpaceB).head? = some 45 then - atofBody ((s.dropWhile isSpaceB).drop 1)
  else if (s.dropWhile isSpaceB).head? = some 43 then atofBody ((s.dropWhile isSpaceB).drop 1)
  else atofBody (s.dropWhile isSpaceB)

theorem fracPad6_digits {m : Nat} : ∀ b ∈ fracPad6 m, isDigitB b = true := by
  intro b hb
  unfold fracPad6 at hb
  rcases List.mem_append.mp hb with hb | hb
  · rw [List.eq_of_mem_replicate hb]
    decide
  · exact natDecimal_isDigit b hb

theorem fracPad6_length {m : Nat} (hm : m < 1000000) : (fracPad6 m).length = 6 := by
  have hle : (natDecimal m).length ≤ 6 :=
    natDecimal_length_le (by norm_num [hm] : m < 10 ^ 6) (by norm_num)
  simp [fracPad6]
  omega

theorem fracPad6_parse {m : Nat} : parseNum 10 (fracPad6 m) 0 = m := parseNum_zeros _

theorem atofBody_printf (ip fp : Nat) (hfp : fp < 1000000) :
    atofBody (natDecimal ip ++ 46 :: fracPad6 fp) = (ip : ℚ) + (fp : ℚ) / 1000000 := by
  have hstop := takeWhile_dropWhile_append (p := isDigitB) (natDecimal ip)
    natDecimal_isDigit 46 (by decide) (fracPad6 fp)
  unfold atofBody
  rw [hstop.1, hstop.2, natDecimal_parse]
  unfold atofFrac
  rw [if_pos (by simp)]
  simp only [List.drop_succ_cons, List.drop_zero]
  rw [takeWhile_all (fracPad6 fp) fracPad6_digits, fracPad6_parse, fracPad6_length hfp]
  norm_num

theorem atofModel_neg_cons (rest : CStr) : atofModel (45 :: rest) = - atofBody rest := by
  have hsp : ¬ (isSpaceB 45 = true) := by decide
  have hh : ((45 : Nat) :: rest).head? = some 45 := rfl
  unfold atofModel
  rw [List.dropWhile_cons, if_neg hsp, if_pos hh]
  simp

theorem atofModel_digit_cons {b : Nat} (hb1 : 48 ≤ b) (hb2 : b ≤ 57) (rest : CStr) :
    atofModel (b :: rest) = atofBody (b :: rest) := by
  have hsp : ¬ (isSpaceB b = true) := by
    simp [isSpaceB]
    omega
  have h45 : ¬ ((b :: rest).head? = some 45) := by
    simp
    omega
  have h43 : ¬ ((b :: rest).head? = some 43) := by
    simp
    omega
  unfold atofModel
  rw [List.dropWhile_cons, if_neg hsp, if_neg h45, if_neg h43]

theorem atof_printfF (q : ℚ) :
    atofModel (printfF q)
      = (if q < 0 then -1 else 1) * (((Int.floor (|q| * 1000000 + 1 / 2)).toNat : ℚ) / 1000000) := by
  set M : Nat := (Int.floor (|q| * 1000000 + 1 / 2)).toNat with hM
  have hfp : M % 1000000 < 1000000 := by omega
  have hcombine : ((M / 1000000 : Nat) : ℚ) + ((M % 1000000 : Nat) : ℚ) / 1000000
      = (M : ℚ) / 1000000 := by
    have h := Nat.div_add_mod M 1000000
    have h2 : ((1000000 * (M / 1000000) + M % 1000000 : Nat) : ℚ) = (M : ℚ) := by
      exact_mod_cast congrArg (fun k : Nat => (k : ℚ)) h
    push_cast at h2
    linarith
  have hpr0 : printfF q
      = (if q < 0 then [45] else []) ++ natDecimal (M / 1000000)
        ++ 46 :: fracPad6 (M % 1000000) := by
    simp only [printfF]
  by_cases hq : q < 0
  · have hpr : printfF q
        = 45 :: (natDecimal (M / 1000000) ++ 46 :: fracPad6 (M % 1000000)) := by
      rw [hpr0, if_pos hq]
      simp
    rw [hpr, atofModel_neg_cons, atofBody_printf _ _ hfp, hcombine, if_pos hq]
    ring
  · have hpr : printfF q = natDecimal (M / 1000000) ++ 46 :: fracPad6 (M % 1000000) := by
      rw [hpr0, if_neg hq]
      simp
    obtain ⟨b, tl, hcons⟩ := List.exists_cons_of_ne_nil (natDecimal_ne_nil (n := M / 1000000))
    have hmem := natDecimal_mem b (hcons ▸ List.mem_cons_self b tl)
    have hshape : printfF q = b :: (tl ++ 46 :: fracPad6 (M % 1000000)) := by
      rw [hpr, hcons]
      simp
    rw [hshape, atofModel_digit_cons hmem.1 hmem.2]
    have hback : b :: (tl ++ 46 :: fracPad6 (M % 1000000))
        = natDecimal (M / 1000000) ++ 46 :: fracPad6 (M % 1000000) := by
      rw [hcons]
      simp
    rw [hback, atofBody_printf _ _ hfp, hcombine, if_neg hq]
    ring

theorem atof_printf_bound (q : ℚ) : |q - atofModel (printfF q)| ≤ 1 / 2000000 := by
  rw [atof_printfF q]
  have h0 : (0 : ℚ) ≤ |q| * 1000000 + 1 / 2 := by positivity
  have hcast : (((Int.floor (|q| * 1000000 + 1 / 2)).toNat : ℚ))
      = ((Int.floor (|q| * 1000000 + 1 / 2) : ℤ) : ℚ) := by
    exact_mod_cast congrArg (fun z : Int => (z : ℚ))
      (Int.toNat_of_nonneg (Int.floor_nonneg.mpr h0))
  have hub : ((Int.floor (|q| * 1000000 + 1 / 2) : ℤ) : ℚ) ≤ |q| * 1000000 + 1 / 2 :=
    Int.floor_le _
  have hlb : |q| * 1000000 + 1 / 2 < ((Int.floor (|q| * 1000000 + 1 / 2) : ℤ) : ℚ) + 1 :=
    Int.lt_floor_add_one _
  rw [hcast]
  rcases abs_cases q with ⟨habs, hsign⟩ | ⟨habs, hsign⟩
  · rw [habs] at hub hlb ⊢
    rw [if_neg (not_lt.mpr hsign), abs_le]
    constructor <;> linarith
  · rw [habs] at hub hlb ⊢
    rw [if_pos hsign, abs_le]
    constructor <;> linarith

/-- Signed decimal rendering of an integer. -/
def intDecimal (i : Int) : CStr := (if i < 0 then [45] else []) ++ natDecimal i.natAbs

/-- Signed decimal parse (sign byte then decimal digits). -/
def parseIntDec (s : CStr) : Int :=
  if s.head? = some 45 then -(parseNum 10 (s.drop 1) 0 : Int) else (parseNum 10 s 0 : Int)

/-- Modelled from the spec: the external timestamp collaborator (spec §6,
"Timestamp primitive: format a seconds+microseconds value as ISO-8601 text;
parse ISO-8601 text into seconds+microseconds").  The Gregorian calendar
rendering glib performs is outside this repository and outside the spec's
scope; the model keeps the collaborator's contract — an injective textual
rendering of the `(tv_sec, tv_usec)` pair whose parse is a left inverse —
rendering both fields in signed decimal around fixed `T`/`Z` marker bytes. -/
def g_time_val_to_iso8601 (sec usec : Int) : CStr :=
  intDecimal sec ++ 84 :: (intDecimal usec ++ [90])

/-- Modelled from the spec: parse of the timestamp collaborator, inverse to
`g_time_val_to_iso8601`. -/
def g_time_val_from_iso8601 (s : CStr) : Int × Int :=
  (parseIntDec (s.takeWhile (fun b => b ≠ 84)),
   parseIntDec (((s.dropWhile (fun b => b ≠ 84)).drop 1).takeWhile (fun b => b ≠ 90)))

theorem intDecimal_mem {i : Int} : ∀ b ∈ intDecimal i, b = 45 ∨ (48 ≤ b ∧ b ≤ 57) := by
  intro b hb
  unfold intDecimal at hb
  rcases List.mem_append.mp hb with hb | hb
  · split at hb
    · simp at hb
      exact Or.inl hb
    · simp at hb
  · exact Or.inr (natDecimal_mem b hb)

theorem parseIntDec_intDecimal (i : Int) : parseIntDec (intDecimal i) = i := by
  by_cases hi : i < 0
  · have : intDecimal i = 45 :: natDecimal i.natAbs := by
      unfold intDecimal
      rw [if_pos hi]
      simp
    rw [this]
    unfold parseIntDec
    have hh : ((45 : Nat) :: natDecimal i.natAbs).head? = some 45 := rfl
    rw [if_pos hh]
    simp only [List.drop_succ_cons, List.drop_zero]
    rw [natDecimal_parse]
    omega
  · have : intDecimal i = natDecimal i.natAbs := by
      unfold intDecimal
      rw [if_neg hi]
      simp
    rw [this]
    obtain ⟨b, tl, hcons⟩ := List.exists_cons_of_ne_nil (natDecimal_ne_nil (n := i.natAbs))
    have hmem := natDecimal_mem b (hcons ▸ List.mem_cons_self b tl)
    have h45 : ¬ ((natDecimal i.natAbs).head? = some 45) := by
      rw [hcons]
      simp
      omega
    unfold parseIntDec
    rw [if_neg h45, natDecimal_parse]
    omega

theorem iso8601_roundtrip (sec usec : Int) :
    g_time_val_from_iso8601 (g_time_val_to_iso8601 sec usec) = (sec, usec) := by
  have hsec : ∀ b ∈ intDecimal sec, (fun b => decide (b ≠ 84)) b = true := by
    intro b hb
    rcases intDecimal_mem b hb with h | h <;> simp <;> omega
  have husec : ∀ b ∈ intDecimal usec, (fun b => decide (b ≠ 90)) b = true := by
    intro b hb
    rcases intDecimal_mem b hb with h | h <;> simp <;> omega
  have h84 : (fun b => decide (b ≠ 84)) 84 = false := by decide
  have h90 : (fun b => decide (b ≠ 90)) 90 = false := by decide
  have hsplit := takeWhile_dropWhile_append (intDecimal sec) hsec 84 h84 (intDecimal usec ++ [90])
  unfold g_time_val_to_iso8601 g_time_val_from_iso8601
  rw [hsplit.1, hsplit.2]
  simp only [List.drop_succ_cons, List.drop_zero]
  have hsplit2 := takeWhile_dropWhile_append (intDecimal usec) husec 90 h90 []
  have : intDecimal usec ++ [90] = intDecimal usec ++ 90 :: [] := rfl
  rw [this, hsplit2.1, parseIntDec_intDecimal, parseIntDec_intDecimal]

/-- DOM-level model of the libxml2 node tree this codec reads and writes: an
element with a tag name and ordered children, or a text node carrying
(unescaped) character bytes.  Entity-reference children are collapsed into
their substituted text — the decoder observes content only through
`xmlNodeGetContent`, which performs that substitution. -/
inductive XmlNode where
  | elem (name : String) (children : List XmlNode)
  | text (s : CStr)

/-- The node name libxml2 reports: the tag for elements and `"text"` for text
nodes — which is what the decoder's `xmlStrcmp(node->name, XPLIST_TEXT)` skip
test compares against. -/
def xmlName : XmlNode → String
  | .elem n _ => n
  | .text _ => "text"

mutual

/-- `xmlNodeGetContent`: concatenation of all character data under a node. -/
def getContent : XmlNode → CStr
  | .elem _ cs => getContentList cs
  | .text s => s

def getContentList : List XmlNode → CStr
  | [] => []
  | c :: r => getContent c ++ getContentList r

end

/-- The node-kind tag of `plist_data_t`.  `PLIST_NONE` models a freshly
allocated payload whose kind the decoder has not assigned;
`plist_new_plist_data` lives outside `src/` and is modelled from the spec as
producing a default-initialised payload. -/
inductive PlistType where
  | PLIST_NONE
  | PLIST_BOOLEAN
  | PLIST_UINT
  | PLIST_REAL
  | PLIST_STRING
  | PLIST_KEY
  | PLIST_DATA
  | PLIST_DATE
  | PLIST_ARRAY
  | PLIST_DICT
deriving DecidableEq

/-- The payload record `plist_data_t`: the kind tag plus the union fields
(the C union is modelled as a record with one field per member; only the
field selected by `type` is meaningful, spec §3). `strval` is `none` when the
C pointer is NULL; `tv_sec`/`tv_usec` are the `GTimeVal` fields. -/
structure PlistData where
  type : PlistType := PlistType.PLIST_NONE
  boolval : Bool := false
  intval : Nat := 0
  realval : ℚ := 0
  strval : Option CStr := none
  buff : List Nat := []
  length : Nat := 0
  tv_sec : Int := 0
  tv_usec : Int := 0
deriving DecidableEq

/-- The generic ordered tree (`GNode`) with one `plist_data_t` per node. -/
inductive GNode where
  | node (data : PlistData) (children : List GNode)

def GNode.data : GNode → PlistData
  | .node d _ => d

def GNode.children : GNode → List GNode
  | .node _ cs => cs

/-- Tab indentation the encoder emits at nesting depth `depth`
(`xmlNodeAddContent` of one tab, `depth` times; adjacent text merges). -/
def tabs (depth : Nat) : CStr := List.replicate depth 9

/-- Modelled from the spec: libxml2's `xmlNewChild(parent, NULL, tag, val)`
hands `val` to `xmlStringGetNodeList`, which parses it as XML text with
entity references substituted (the XML document model collaborator of spec
§6); a NULL or empty `val` produces no children. -/
def xmlStringGetNodeList (v : CStr) : List XmlNode :=
  if v = [] then [] else [XmlNode.text (substEntities v)]

mutual

/-- The element `node_to_xml` creates for one tree node (`src/xplist.c`
lines 139-225): the tag chosen by the `switch` on `node_data->type`, with its
value text — via `xmlNewTextChild` (raw text) for `PLIST_STRING`, via
`xmlNewChild` (`xmlStringGetNodeList`) otherwise — and, for containers, a
newline, the children encoded at `depth + 1`, and the closing indentation.
A `PLIST_NONE` node falls into the C `switch`'s empty `default:` branch and
would reach `xmlNewChild` with a NULL tag; it is rendered as an empty
unnamed element (no well-formed tree contains one). -/
def encodeElem : GNode → Nat → XmlNode
  | .node d cs, depth =>
    match d.type with
    | .PLIST_BOOLEAN => .elem (if d.boolval then "true" else "false") []
    | .PLIST_UINT => .elem "integer" (xmlStringGetNodeList (natDecimal d.intval))
    | .PLIST_REAL => .elem "real" (xmlStringGetNodeList (printfF d.realval))
    | .PLIST_STRING =>
      .elem "string" (match d.strval with
        | some s => [XmlNode.text s]
        | none => [])
    | .PLIST_KEY =>
      .elem "key" (match d.strval with
        | some s => xmlStringGetNodeList s
        | none => [])
    | .PLIST_DATA =>
      .elem "data" (if d.length ≠ 0 then
          xmlStringGetNodeList (format_string (g_base64_encode (d.buff.take d.length)) 60 depth)
        else [])
    | .PLIST_DATE =>
      .elem "date" (xmlStringGetNodeList (g_time_val_to_iso8601 d.tv_sec d.tv_usec))
    | .PLIST_ARRAY =>
      .elem "array"
        (XmlNode.text [10] :: (encodeChildren cs (depth + 1) ++ [XmlNode.text (tabs depth)]))
    | .PLIST_DICT =>
      .elem "dict"
        (XmlNode.text [10] :: (encodeChildren cs (depth + 1) ++ [XmlNode.text (tabs depth)]))
    | .PLIST_NONE => .elem "" []

/-- What `g_node_children_foreach(node, G_TRAVERSE_ALL, node_to_xml, &child)`
appends into the parent element: for each child in order, `depth` tabs, the
child's element, and a newline. -/
def encodeChildren : List GNode → Nat → List XmlNode
  | [], _ => []
  | c :: rest, depth =>
    XmlNode.text (tabs depth) :: encodeElem c depth
      :: XmlNode.text [10] :: encodeChildren rest depth

end

/-- `node_to_xml(node, xml_struct)`: what one call appends to the parent
element — `depth` tabs, the node's element, and a newline. -/
def nodeToXml (g : GNode) (depth : Nat) : List XmlNode :=
  [XmlNode.text (tabs depth), encodeElem g depth, XmlNode.text [10]]

/-- The `<plist version="1.0">` root element after `plist_to_xml` has run
`node_to_xml` on the root value at depth 0: the template document's root
already carries one newline text child, and the encoded value is appended
after it. -/
def plistDocRoot (g : GNode) : XmlNode :=
  XmlNode.elem "plist" (XmlNode.text [10] :: nodeToXml g 0)

mutual

/-- One iteration body of `xml_to_node`'s child loop after the `"text"` skip
(`src/xplist.c` lines 251-356): allocate a fresh payload and node, then fill
them by the tag-name dispatch; an unrecognised tag leaves the freshly
allocated payload untouched. -/
def decodeElem : XmlNode → GNode
  | .text _ => GNode.node {} []
  | .elem n cs =>
    if n = "true" then
      GNode.node { type := PlistType.PLIST_BOOLEAN, boolval := true, length := 1 } []
    else if n = "false" then
      GNode.node { type := PlistType.PLIST_BOOLEAN, boolval := false, length := 1 } []
    else if n = "integer" then
      GNode.node
        { type := PlistType.PLIST_UINT
          intval := g_ascii_strtoull (getContentList cs)
          length := 8 } []
    else if n = "real" then
      GNode.node
        { type := PlistType.PLIST_REAL
          realval := atofModel (getContentList cs)
          length := 8 } []
    else if n = "date" then
      GNode.node
        { type := PlistType.PLIST_DATE
          tv_sec := (g_time_val_from_iso8601 (cstr (getContentList cs))).1
          tv_usec := (g_time_val_from_iso8601 (cstr (getContentList cs))).2
          length := 16 } []
    else if n = "string" then
      if xmlDetectCharEncoding (cstr (getContentList cs)) = XML_CHAR_ENCODING_UTF8
          ∨ xmlDetectCharEncoding (cstr (getContentList cs)) = XML_CHAR_ENCODING_ASCII
          ∨ xmlDetectCharEncoding (cstr (getContentList cs)) = XML_CHAR_ENCODING_NONE then
        GNode.node
          { type := PlistType.PLIST_STRING
            strval := some (cstr (getContentList cs))
            length := (cstr (getContentList cs)).length } []
      else
        GNode.node {} []
    else if n = "key" then
      GNode.node
        { type := PlistType.PLIST_KEY
          strval := some (cstr (getContentList cs))
          length := (cstr (getContentList cs)).length } []
    else if n = "data" then
      GNode.node
        { type := PlistType.PLIST_DATA
          buff := g_base64_decode (cstr (getContentList cs))
          length := (g_base64_decode (cstr (getContentList cs))).length } []
    else if n = "array" then
      match foldChildren cs (some (GNode.node { type := PlistType.PLIST_ARRAY } [])) with
      | some g => g
      | none => GNode.node { type := PlistType.PLIST_ARRAY } []
    else if n = "dict" then
      match foldChildren cs (some (GNode.node { type := PlistType.PLIST_DICT } [])) with
      | some g => g
      | none => GNode.node { type := PlistType.PLIST_DICT } []
    else GNode.node {} []

/-- The child loop of `xml_to_node(xml_node, plist_node)`: skip `"text"`
nodes; for every other child, decode it and `g_node_append` it to
`*plist_node` — or make it `*plist_node` when that is still NULL. -/
def foldChildren : List XmlNode → Option GNode → Option GNode
  | [], acc => acc
  | c :: rest, acc =>
    if xmlName c = "text" then foldChildren rest acc
    else
      match acc with
      | some (GNode.node d k) => foldChildren rest (some (GNode.node d (k ++ [decodeElem c])))
      | none => foldChildren rest (some (decodeElem c))

end

/-- `xml_to_node(xml_node, plist_node)`: iterate over the children of the
given node (a text node has none), threading the `plist_t *` out-cell. -/
def xmlToNode (x : XmlNode) (acc : Option GNode) : Option GNode :=
  match x with
  | .elem _ cs => foldChildren cs acc
  | .text _ => acc

/-- `plist_from_xml(plist_xml, length, plist)`: the external XML collaborator
parses the bytes into a document; the codec then runs `xml_to_node` on the
document's root element with the caller's `plist_t *` cell. -/
def plist_from_xml (root : XmlNode) (plist : Option GNode) : Option GNode :=
  xmlToNode root plist

/-- The decoded nodes the child loop produces for a child list, in document
order (a specification device: `foldChildren_some` proves it is what the
loop appends). -/
def decodedKids : List XmlNode → List GNode
  | [] => []
  | c :: r => if xmlName c = "text" then decodedKids r else decodeElem c :: decodedKids r

theorem decodedKids_eq_filter_map (l : List XmlNode) :
    decodedKids l = (l.filter (fun c => xmlName c ≠ "text")).map decodeElem := by
  induction l with
  | nil => rfl
  | cons c r ih =>
    by_cases hc : xmlName c = "text"
    · simp [decodedKids, hc, List.filter_cons, ih]
    · simp [decodedKids, hc, List.filter_cons, ih]

theorem decodedKids_append (l1 l2 : List XmlNode) :
    decodedKids (l1 ++ l2) = decodedKids l1 ++ decodedKids l2 := by
  induction l1 with
  | nil => rfl
  | cons c r ih =>
    by_cases hc : xmlName c = "text"
    · simp [decodedKids, hc, ih]
    · simp [decodedKids, hc, ih]

theorem foldChildren_some : ∀ (l : List XmlNode) (d : PlistData) (k : List GNode),
    foldChildren l (some (GNode.node d k)) = some (GNode.node d (k ++ decodedKids l))
  | [], d, k => by simp [foldChildren, decodedKids]
  | c :: rest, d, k => by
    by_cases hc : xmlName c = "text"
    · rw [show foldChildren (c :: rest) (some (GNode.node d k))
          = foldChildren rest (some (GNode.node d k)) from by simp [foldChildren, hc]]
      rw [foldChildren_some rest d k]
      simp [decodedKids, hc]
    · rw [show foldChildren (c :: rest) (some (GNode.node d k))
          = foldChildren rest (some (GNode.node d (k ++ [decodeElem c]))) from by
        simp [foldChildren, hc]]
      rw [foldChildren_some rest d (k ++ [decodeElem c])]
      simp [decodedKids, hc]

theorem foldChildren_none_first :
    ∀ (pre : List XmlNode), (∀ x ∈ pre, xmlName x = "text") →
      ∀ (c : XmlNode), xmlName c ≠ "text" → ∀ (rest : List XmlNode),
        foldChildren (pre ++ c :: rest) none
          = some (GNode.node (decodeElem c).data
              ((decodeElem c).children ++ decodedKids rest))
  | [], _, c, hc, rest => by
    rw [List.nil_append]
    rw [show foldChildren (c :: rest) none = foldChildren rest (some (decodeElem c)) from by
      simp [foldChildren, hc]]
    cases hdc : decodeElem c with
    | node d k =>
      rw [foldChildren_some rest d k]
      simp [GNode.data, GNode.children]
  | p :: pre, hpre, c, hc, rest => by
    have hp : xmlName p = "text" := hpre p (by simp)
    rw [List.cons_append]
    rw [show foldChildren (p :: (pre ++ c :: rest)) none
        = foldChildren (pre ++ c :: rest) none from by simp [foldChildren, hp]]
    exact foldChildren_none_first pre (fun x hx => hpre x (by simp [hx])) c hc rest

theorem decodeElem_array (cs : List XmlNode) :
    decodeElem (XmlNode.elem "array" cs)
      = GNode.node { type := PlistType.PLIST_ARRAY } (decodedKids cs) := by
  have h := foldChildren_some cs { type := PlistType.PLIST_ARRAY } []
  simp [decodeElem, h]

theorem decodeElem_dict (cs : List XmlNode) :
    decodeElem (XmlNode.elem "dict" cs)
      = GNode.node { type := PlistType.PLIST_DICT } (decodedKids cs) := by
  have h := foldChildren_some cs { type := PlistType.PLIST_DICT } []
  simp [decodeElem, h]

/-- Payload comparison behind the claims' "structurally equal": the kinds
agree and the payload selected by the kind agrees, except that Real payloads
are compared with the 6-fractional-digit fixed-point rounding tolerance the
spec names (|difference| ≤ half of 10⁻⁶). -/
def dataEq (d1 d2 : PlistData) : Bool :=
  d1.type == d2.type &&
  match d1.type with
  | .PLIST_BOOLEAN => d1.boolval == d2.boolval
  | .PLIST_UINT => d1.intval == d2.intval
  | .PLIST_REAL => decide (|d1.realval - d2.realval| ≤ 1 / 2000000)
  | .PLIST_STRING => d1.strval == d2.strval
  | .PLIST_KEY => d1.strval == d2.strval
  | .PLIST_DATA => d1.buff == d2.buff && d1.length == d2.length
  | .PLIST_DATE => d1.tv_sec == d2.tv_sec && d1.tv_usec == d2.tv_usec
  | _ => true

mutual

/-- Structural equality of value trees in the sense of the round-trip claim:
matching kinds, matching selected payloads (`dataEq`, with the Real
tolerance), and recursively matching child lists. -/
def structEq : GNode → GNode → Bool
  | GNode.node d1 cs1, GNode.node d2 cs2 => dataEq d1 d2 && structEqList cs1 cs2

def structEqList : List GNode → List GNode → Bool
  | [], [] => true
  | [], _ :: _ => false
  | _ :: _, [] => false
  | a :: r1, b :: r2 => structEq a b && structEqList r1 r2

end

theorem structEqList_map {f : GNode → GNode} :
    ∀ (cs : List GNode), (∀ c ∈ cs, structEq c (f c) = true) →
      structEqList cs (cs.map f) = true
  | [], _ => rfl
  | c :: r, h => by
    rw [List.map_cons]
    rw [show structEqList (c :: r) (f c :: r.map f)
        = (structEq c (f c) && structEqList r (r.map f)) from by simp [structEqList]]
    rw [h c (by simp), structEqList_map r (fun x hx => h x (by simp [hx]))]
    rfl

mutual

/-- Well-formedness of an encoder input tree: the representation invariants a
C `plist_t` built from the supported kinds satisfies (spec §3) — a kind is
assigned; string/key payloads are present, NUL-free C strings (strings
additionally valid UTF-8); `intval` fits 64 bits; `length` describes `buff`;
data bytes are bytes; scalar nodes are leaves — plus the one constraint the
round-trip analysis forces beyond representability: Key payloads contain no
`&` (byte 38), since the encoder pipes keys through `xmlNewChild` without
escaping (see the C1/C3 theorems). -/
def wfNode : GNode → Bool
  | GNode.node d cs =>
    match d.type with
    | .PLIST_NONE => false
    | .PLIST_BOOLEAN => cs.isEmpty
    | .PLIST_UINT => decide (d.intval < 2 ^ 64) && cs.isEmpty
    | .PLIST_REAL => cs.isEmpty
    | .PLIST_STRING =>
      (match d.strval with
       | some s => utf8Valid s && decide (0 ∉ s)
       | none => false) && cs.isEmpty
    | .PLIST_KEY =>
      (match d.strval with
       | some s => decide (0 ∉ s) && decide (38 ∉ s)
       | none => false) && cs.isEmpty
    | .PLIST_DATA =>
      decide (d.length = d.buff.length) && d.buff.all (fun b => b < 256) && cs.isEmpty
    | .PLIST_DATE => cs.isEmpty
    | .PLIST_ARRAY => wfList cs
    | .PLIST_DICT => wfList cs

def wfList : List GNode → Bool
  | [] => true
  | c :: r => wfNode c && wfList r

end

theorem wfList_mem : ∀ {cs : List GNode}, wfList cs = true → ∀ c ∈ cs, wfNode c = true := by
  intro cs
  induction cs with
  | nil => intro _ c hc; simp at hc
  | cons a r ih =>
    intro h c hc
    rw [show wfList (a :: r) = (wfNode a && wfList r) from by simp [wfList]] at h
    simp only [Bool.and_eq_true] at h
    rcases List.mem_cons.mp hc with rfl | hc
    · exact h.1
    · exact ih h.2 c hc

theorem gnodeInduction {P : GNode → Prop}
    (step : ∀ d cs, (∀ c ∈ cs, P c) → P (GNode.node d cs)) : ∀ g, P g
  | GNode.node d cs => step d cs (fun c hc => gnodeInduction step c)
termination_by g => sizeOf g
decreasing_by
  have h1 := List.sizeOf_lt_of_mem hc
  simp only [GNode.node.sizeOf_spec]
  omega

theorem getContentList_nodeList (v : CStr) :
    getContentList (xmlStringGetNodeList v) = substEntities v := by
  unfold xmlStringGetNodeList
  by_cases hv : v = []
  · subst hv
    rw [if_pos rfl]
    rfl
  · rw [if_neg hv]
    simp [getContentList, getContent]

theorem no38_natDecimal {n : Nat} : 38 ∉ natDecimal n := by
  intro h
  have := natDecimal_mem 38 h
  omega

theorem printfF_mem {q : ℚ} : ∀ b ∈ printfF q, b = 45 ∨ b = 46 ∨ (48 ≤ b ∧ b ≤ 57) := by
  intro b hb
  simp only [printfF] at hb
  rcases List.mem_append.mp hb with hb | hb
  · rcases List.mem_append.mp hb with hb | hb
    · split at hb
      · simp at hb
        exact Or.inl hb
      · simp at hb
    · exact Or.inr (Or.inr (natDecimal_mem b hb))
  · rcases List.mem_cons.mp hb with rfl | hb
    · exact Or.inr (Or.inl rfl)
    · exact Or.inr (Or.inr (fracPad6_digits b hb |> fun h => by
        simp [isDigitB] at h
        omega))

theorem iso8601_mem {sec usec : Int} :
    ∀ b ∈ g_time_val_to_iso8601 sec usec,
      b = 45 ∨ b = 84 ∨ b = 90 ∨ (48 ≤ b ∧ b ≤ 57) := by
  intro b hb
  unfold g_time_val_to_iso8601 at hb
  rcases List.mem_append.mp hb with hb | hb
  · rcases intDecimal_mem b hb with h | h
    · exact Or.inl h
    · exact Or.inr (Or.inr (Or.inr h))
  · rcases List.mem_cons.mp hb with rfl | hb
    · exact Or.inr (Or.inl rfl)
    rcases List.mem_append.mp hb with hb | hb
    · rcases intDecimal_mem b hb with h | h
      · exact Or.inl h
      · exact Or.inr (Or.inr (Or.inr h))
    · simp at hb
      exact Or.inr (Or.inr (Or.inl hb))

theorem b64Rank_isSome_ge {b : Nat} (h : (b64Rank b).isSome = true) : 43 ≤ b := by
  by_contra hlt
  push_neg at hlt
  unfold b64Rank at h
  rw [if_neg (by omega), if_neg (by omega), if_neg (by omega), if_neg (by omega),
    if_neg (by omega), if_neg (by omega)] at h
  simp at h

theorem data_bytes_mem {l : List Nat} (hl : ∀ b ∈ l, b < 256) {d : Nat} :
    ∀ b ∈ format_string (g_base64_encode l) 60 d, b = 10 ∨ b = 9 ∨ 43 ≤ b := by
  intro b hb
  rcases mem_format_string hb with h | h | h
  · exact Or.inl h
  · exact Or.inr (Or.inl h)
  · exact Or.inr (Or.inr (b64Rank_isSome_ge (mem_b64_encode_ranked l hl b h)))

theorem no38_printfF {q : ℚ} : 38 ∉ printfF q := by
  intro h
  rcases printfF_mem 38 h with h | h | h <;> omega

theorem xmlName_encodeElem_ne_text (g : GNode) (depth : Nat) :
    xmlName (encodeElem g depth) ≠ "text" := by
  cases g with
  | node d cs =>
    cases htype : d.type <;> simp [encodeElem, htype, xmlName]
    split <;> simp [xmlName]

theorem decodedKids_cons (x : XmlNode) (r : List XmlNode) :
    decodedKids (x :: r)
      = if xmlName x = "text" then decodedKids r else decodeElem x :: decodedKids r := rfl

theorem decodedKids_cons_text (s : CStr) (r : List XmlNode) :
    decodedKids (XmlNode.text s :: r) = decodedKids r := by
  have h : xmlName (XmlNode.text s) = "text" := rfl
  rw [decodedKids_cons, if_pos h]

theorem decodedKids_cons_elem {x : XmlNode} (hx : xmlName x ≠ "text") (r : List XmlNode) :
    decodedKids (x :: r) = decodeElem x :: decodedKids r := by
  rw [decodedKids_cons, if_neg hx]

theorem decodedKids_encodeChildren : ∀ (cs : List GNode) (depth : Nat),
    decodedKids (encodeChildren cs depth) = cs.map (fun c => decodeElem (encodeElem c depth))
  | [], _ => rfl
  | c :: r, depth => by
    rw [show encodeChildren (c :: r) depth
        = XmlNode.text (tabs depth) :: encodeElem c depth
          :: XmlNode.text [10] :: encodeChildren r depth from by simp [encodeChildren]]
    rw [decodedKids_cons_text, decodedKids_cons_elem (xmlName_encodeElem_ne_text c depth),
      decodedKids_cons_text, decodedKids_encodeChildren r depth, List.map_cons]

theorem roundtripElem : ∀ g, wfNode g = true → ∀ depth,
    structEq g (decodeElem (encodeElem g depth)) = true := by
  intro g
  induction g using gnodeInduction with
  | step d cs ih =>
    intro hwf depth
    cases htype : d.type with
    | PLIST_NONE =>
      rw [show wfNode (GNode.node d cs) = false from by simp [wfNode, htype]] at hwf
      exact absurd hwf (by decide)
    | PLIST_BOOLEAN =>
      have hcs : cs = [] := by
        have h := hwf
        simp [wfNode, htype] at h
        exact h
      subst hcs
      cases hb : d.boolval
      · rw [show encodeElem (GNode.node d []) depth = XmlNode.elem "false" [] from by
          simp [encodeElem, htype, hb]]
        rw [show decodeElem (XmlNode.elem "false" [])
            = GNode.node { type := PlistType.PLIST_BOOLEAN, boolval := false, length := 1 } []
          from by simp [decodeElem]]
        simp [structEq, structEqList, dataEq, htype, hb]
      · rw [show encodeElem (GNode.node d []) depth = XmlNode.elem "true" [] from by
          simp [encodeElem, htype, hb]]
        rw [show decodeElem (XmlNode.elem "true" [])
            = GNode.node { type := PlistType.PLIST_BOOLEAN, boolval := true, length := 1 } []
          from by simp [decodeElem]]
        simp [structEq, structEqList, dataEq, htype, hb]
    | PLIST_UINT =>
      have h1 : d.intval < 2 ^ 64 ∧ cs = [] := by
        have h := hwf
        simp [wfNode, htype] at h
        exact h
      obtain ⟨hlt, hcs⟩ := h1
      subst hcs
      rw [show encodeElem (GNode.node d []) depth
          = XmlNode.elem "integer" (xmlStringGetNodeList (natDecimal d.intval)) from by
        simp [encodeElem, htype]]
      rw [show decodeElem (XmlNode.elem "integer" (xmlStringGetNodeList (natDecimal d.intval)))
          = GNode.node { type := PlistType.PLIST_UINT, intval := d.intval, length := 8 } []
        from by
        simp [decodeElem, getContentList_nodeList, substEntities_id no38_natDecimal,
          strtoull_natDecimal d.intval hlt]]
      simp [structEq, structEqList, dataEq, htype]
    | PLIST_REAL =>
      have hcs : cs = [] := by
        have h := hwf
        simp [wfNode, htype] at h
        exact h
      subst hcs
      rw [show encodeElem (GNode.node d []) depth
          = XmlNode.elem "real" (xmlStringGetNodeList (printfF d.realval)) from by
        simp [encodeElem, htype]]
      rw [show decodeElem (XmlNode.elem "real" (xmlStringGetNodeList (printfF d.realval)))
          = GNode.node
              { type := PlistType.PLIST_REAL
                realval := atofModel (printfF d.realval)
                length := 8 } []
        from by
        simp [decodeElem, getContentList_nodeList, substEntities_id no38_printfF]]
      simp [structEq, structEqList, dataEq, htype]
      exact le_trans (atof_printf_bound d.realval) (by norm_num)
    | PLIST_STRING =>
      cases hs : d.strval with
      | none =>
        have h := hwf
        simp [wfNode, htype, hs] at h
      | some s =>
        have h1 : (utf8Valid s = true ∧ 0 ∉ s) ∧ cs = [] := by
          have h := hwf
          simp [wfNode, htype, hs] at h
          exact h
        obtain ⟨⟨hutf, h0⟩, hcs⟩ := h1
        subst hcs
        rw [show encodeElem (GNode.node d []) depth
            = XmlNode.elem "string" [XmlNode.text s] from by simp [encodeElem, htype, hs]]
        have hcontent : getContentList [XmlNode.text s] = s := by
          simp [getContentList, getContent]
        have hdet := detect_utf8_or_none hutf h0
        rw [show decodeElem (XmlNode.elem "string" [XmlNode.text s])
            = GNode.node
                { type := PlistType.PLIST_STRING
                  strval := some s
                  length := s.length } []
          from by
          rcases hdet with hdet | hdet <;>
            simp [decodeElem, hcontent, cstr_eq_self h0, hdet]]
        simp [structEq, structEqList, dataEq, htype, hs]
    | PLIST_KEY =>
      cases hs : d.strval with
      | none =>
        have h := hwf
        simp [wfNode, htype, hs] at h
      | some s =>
        have h1 : (0 ∉ s ∧ 38 ∉ s) ∧ cs = [] := by
          have h := hwf
          simp [wfNode, htype, hs] at h
          exact h
        obtain ⟨⟨h0, h38⟩, hcs⟩ := h1
        subst hcs
        rw [show encodeElem (GNode.node d []) depth
            = XmlNode.elem "key" (xmlStringGetNodeList s) from by
          simp [encodeElem, htype, hs]]
        rw [show decodeElem (XmlNode.elem "key" (xmlStringGetNodeList s))
            = GNode.node
                { type := PlistType.PLIST_KEY
                  strval := some s
                  length := s.length } []
          from by
          simp [decodeElem, getContentList_nodeList, substEntities_id h38, cstr_eq_self h0]]
        simp [structEq, structEqList, dataEq, htype, hs]
    | PLIST_DATE =>
      have hcs : cs = [] := by
        have h := hwf
        simp [wfNode, htype] at h
        exact h
      subst hcs
      have h38 : 38 ∉ g_time_val_to_iso8601 d.tv_sec d.tv_usec := by
        intro h
        rcases iso8601_mem 38 h with h | h | h | h <;> omega
      have h0 : 0 ∉ g_time_val_to_iso8601 d.tv_sec d.tv_usec := by
        intro h
        rcases iso8601_mem 0 h with h | h | h | h <;> omega
      rw [show encodeElem (GNode.node d []) depth
          = XmlNode.elem "date"
              (xmlStringGetNodeList (g_time_val_to_iso8601 d.tv_sec d.tv_usec)) from by
        simp [encodeElem, htype]]
      rw [show decodeElem (XmlNode.elem "date"
            (xmlStringGetNodeList (g_time_val_to_iso8601 d.tv_sec d.tv_usec)))
          = GNode.node
              { type := PlistType.PLIST_DATE
                tv_sec := d.tv_sec
                tv_usec := d.tv_usec
                length := 16 } []
        from by
        simp [decodeElem, getContentList_nodeList, substEntities_id h38, cstr_eq_self h0,
          iso8601_roundtrip]]
      simp [structEq, structEqList, dataEq, htype]
    | PLIST_DATA =>
      have h1 : (d.length = d.buff.length ∧ (∀ b ∈ d.buff, b < 256)) ∧ cs = [] := by
        have h := hwf
        simp [wfNode, htype] at h
        exact h
      obtain ⟨⟨hlb, h256⟩, hcs⟩ := h1
      subst hcs
      by_cases hlen : d.length = 0
      · have hbuff : d.buff = [] := by
          rw [hlen] at hlb
          exact (List.length_eq_zero.mp hlb.symm)
        rw [show encodeElem (GNode.node d []) depth = XmlNode.elem "data" [] from by
          simp [encodeElem, htype, hlen]]
        rw [show decodeElem (XmlNode.elem "data" [])
            = GNode.node { type := PlistType.PLIST_DATA, buff := [], length := 0 } []
          from by simp [decodeElem, getContentList, cstr, g_base64_decode, b64DecodeQuads]]
        simp [structEq, structEqList, dataEq, htype, hbuff, hlen]
      · have htake : d.buff.take d.length = d.buff := by
          rw [hlb]
          exact List.take_length d.buff
        have hbytes := data_bytes_mem (l := d.buff) h256 (d := depth)
        have h38 : 38 ∉ format_string (g_base64_encode d.buff) 60 depth := by
          intro h
          rcases hbytes 38 h with h | h | h <;> omega
        have h0 : 0 ∉ format_string (g_base64_encode d.buff) 60 depth := by
          intro h
          rcases hbytes 0 h with h | h | h <;> omega
        have hdecode : g_base64_decode (format_string (g_base64_encode d.buff) 60 depth)
            = d.buff := by
          unfold g_base64_decode
          rw [filter_format_string (by decide) (by decide)
            (mem_b64_encode_ranked d.buff h256) depth]
          exact b64_decode_encode d.buff h256
        rw [show encodeElem (GNode.node d []) depth
            = XmlNode.elem "data" (xmlStringGetNodeList
                (format_string (g_base64_encode d.buff) 60 depth)) from by
          simp [encodeElem, htype, hlen, htake]]
        rw [show decodeElem (XmlNode.elem "data" (xmlStringGetNodeList
              (format_string (g_base64_encode d.buff) 60 depth)))
            = GNode.node
                { type := PlistType.PLIST_DATA
                  buff := d.buff
                  length := d.buff.length } []
          from by
          simp [decodeElem, getContentList_nodeList, substEntities_id h38,
            cstr_eq_self h0, hdecode]]
        simp [structEq, structEqList, dataEq, htype, hlb]
    | PLIST_ARRAY =>
      have hwl : wfList cs = true := by
        have h := hwf
        simp [wfNode, htype] at h
        exact h
      rw [show encodeElem (GNode.node d cs) depth
          = XmlNode.elem "array" (XmlNode.text [10]
              :: (encodeChildren cs (depth + 1) ++ [XmlNode.text (tabs depth)])) from by
        simp [encodeElem, htype]]
      rw [decodeElem_array]
      rw [show decodedKids (XmlNode.text [10]
            :: (encodeChildren cs (depth + 1) ++ [XmlNode.text (tabs depth)]))
          = cs.map (fun c => decodeElem (encodeElem c (depth + 1))) from by
        rw [decodedKids_cons_text, decodedKids_append, decodedKids_cons_text,
          decodedKids_encodeChildren]
        simp [decodedKids]]
      rw [show structEq (GNode.node d cs)
            (GNode.node { type := PlistType.PLIST_ARRAY }
              (cs.map (fun c => decodeElem (encodeElem c (depth + 1)))))
          = (dataEq d { type := PlistType.PLIST_ARRAY }
              && structEqList cs (cs.map (fun c => decodeElem (encodeElem c (depth + 1)))))
        from by simp [structEq]]
      rw [show dataEq d { type := PlistType.PLIST_ARRAY } = true from by
        simp [dataEq, htype]]
      rw [structEqList_map cs
        (fun c hc => ih c hc (wfList_mem hwl c hc) (depth + 1))]
      rfl
    | PLIST_DICT =>
      have hwl : wfList cs = true := by
        have h := hwf
        simp [wfNode, htype] at h
        exact h
      rw [show encodeElem (GNode.node d cs) depth
          = XmlNode.elem "dict" (XmlNode.text [10]
              :: (encodeChildren cs (depth + 1) ++ [XmlNode.text (tabs depth)])) from by
        simp [encodeElem, htype]]
      rw [decodeElem_dict]
      rw [show decodedKids (XmlNode.text [10]
            :: (encodeChildren cs (depth + 1) ++ [XmlNode.text (tabs depth)]))
          = cs.map (fun c => decodeElem (encodeElem c (depth + 1))) from by
        rw [decodedKids_cons_text, decodedKids_append, decodedKids_cons_text,
          decodedKids_encodeChildren]
        simp [decodedKids]]
      rw [show structEq (GNode.node d cs)
            (GNode.node { type := PlistType.PLIST_DICT }
              (cs.map (fun c => decodeElem (encodeElem c (depth + 1)))))
          = (dataEq d { type := PlistType.PLIST_DICT }
              && structEqList cs (cs.map (fun c => decodeElem (encodeElem c (depth + 1)))))
        from by simp [structEq]]
      rw [show dataEq d { type := PlistType.PLIST_DICT } = true from by
        simp [dataEq, htype]]
      rw [structEqList_map cs
        (fun c hc => ih c hc (wfList_mem hwl c hc) (depth + 1))]
      rfl

/-- Text escaping libxml2's serialiser applies to character data when dumping
a document (`&`, `<`, `>` become entity references). -/
def xmlEscapeText : CStr → CStr
  | [] => []
  | b :: r =>
    if b = 38 then 38 :: 97 :: 109 :: 112 :: 59 :: xmlEscapeText r
    else if b = 60 then 38 :: 108 :: 116 :: 59 :: xmlEscapeText r
    else if b = 62 then 38 :: 103 :: 116 :: 59 :: xmlEscapeText r
    else b :: xmlEscapeText r

/-- Byte sequence of an ASCII tag-name string. -/
def strBytes (s : String) : CStr := s.data.map Char.toNat

mutual

/-- Serialisation of one DOM node as libxml2's dumper renders it: text is
escaped, childless elements self-close, others wrap their serialised
children. -/
def serializeNode : XmlNode → CStr
  | XmlNode.text s => xmlEscapeText s
  | XmlNode.elem n cs =>
    if cs.isEmpty then strBytes ("<" ++ n ++ "/>")
    else strBytes ("<" ++ n ++ ">") ++ serializeList cs ++ strBytes ("</" ++ n ++ ">")

def serializeList : List XmlNode → CStr
  | [] => []
  | c :: r => serializeNode c ++ serializeList r

end

/-- Model of `xmlDocDumpMemory` on the document `plist_to_xml` builds: the
XML declaration and DOCTYPE of the `plist_base` template, the serialised
root element, and a trailing newline. -/
def xmlDocDumpMemory (root : XmlNode) : CStr :=
  strBytes "<?xml version=\"1.0\" encoding=\"UTF-8\"?>\n<!DOCTYPE plist PUBLIC \"-//Apple Computer//DTD PLIST 1.0//EN\" \"http://www.apple.com/DTDs/PropertyList-1.0.dtd\">\n"
  ++ serializeNode root ++ [10]

/-- The caller-visible cells behind `plist_to_xml`'s out-parameters:
`plist_xml` is `none` when the caller passed a NULL `char **`, and `some c`
when it points at a cell holding `c` (`c = none` meaning the `char *` inside
is NULL); `length` models the `uint32_t` cell. -/
structure XmlOutParams where
  plist_xml : Option (Option CStr)
  length : Nat
deriving DecidableEq

/-- `plist_to_xml(plist, plist_xml, length)` of `src/xplist.c`: the guard
`if (!plist || !plist_xml || *plist_xml) return;` makes the call a no-op in
those cases; otherwise the template document is built, `node_to_xml` encodes
the tree into it, and the dump is stored through the out-parameters. -/
def plist_to_xml (plist : Option GNode) (p : XmlOutParams) : XmlOutParams :=
  match plist, p.plist_xml with
  | none, _ => p
  | some _, none => p
  | some _, some (some _) => p
  | some g, some none =>
    { plist_xml := some (some (xmlDocDumpMemory (plistDocRoot g)))
      length := (xmlDocDumpMemory (plistDocRoot g)).length }

theorem gnode_eta (g : GNode) : GNode.node g.data g.children = g := by
  cases g
  rfl

theorem plist_roundtrip (g : GNode) (hwf : wfNode g = true) :
    ∃ g2, plist_from_xml (plistDocRoot g) none = some g2 ∧ structEq g g2 = true := by
  refine ⟨decodeElem (encodeElem g 0), ?_, roundtripElem g hwf 0⟩
  show xmlToNode (plistDocRoot g) none = _
  unfold plistDocRoot nodeToXml
  rw [show xmlToNode (XmlNode.elem "plist"
        (XmlNode.text [10] :: [XmlNode.text (tabs 0), encodeElem g 0, XmlNode.text [10]]))
        none
      = foldChildren ([XmlNode.text [10], XmlNode.text (tabs 0)]
          ++ encodeElem g 0 :: [XmlNode.text [10]]) none from by
    simp [xmlToNode]]
  rw [foldChildren_none_first [XmlNode.text [10], XmlNode.text (tabs 0)]
    (by
      intro x hx
      rcases List.mem_cons.mp hx with rfl | hx
      · rfl
      · rcases List.mem_cons.mp hx with rfl | hx
        · rfl
        · simp at hx)
    (encodeElem g 0) (xmlName_encodeElem_ne_text g 0) [XmlNode.text [10]]]
  rw [decodedKids_cons_text]
  rw [show decodedKids ([] : List XmlNode) = [] from rfl, List.append_nil, gnode_eta]

theorem digitValIn10_digit {b : Nat} (h1 : 48 ≤ b) (h2 : b ≤ 57) :
    (digitValIn 10 b).isSome = true := by
  unfold digitValIn
  rw [if_pos ⟨h1, h2⟩]
  simp
  omega

/-- Claim C5: when the input root is null, the output string pointer is null,
or the output cell already holds a non-null buffer, `plist_to_xml` is a
silent no-op — it writes nothing through the out-parameters and signals no
error (the out-cells are returned unchanged). -/
theorem claim_C5_encode_guard (plist : Option GNode) (p : XmlOutParams)
    (h : plist = none ∨ p.plist_xml = none ∨ ∃ s, p.plist_xml = some (some s)) :
    plist_to_xml plist p = p := by
  rcases h with rfl | h | ⟨s, hs⟩
  · rfl
  · cases plist with
    | none => rfl
    | some g => simp [plist_to_xml, h]
  · cases plist with
    | none => rfl
    | some g => simp [plist_to_xml, hs]

/-- Witness for C5 at a concrete no-op call (null root, writable cell). -/
theorem claim_C5_encode_guard_witness :
    plist_to_xml none { plist_xml := some none, length := 0 }
      = { plist_xml := some none, length := 0 } :=
  claim_C5_encode_guard none { plist_xml := some none, length := 0 } (Or.inl rfl)

/-- Claim C6: for a non-empty input, column width 60 and depth `d`, the
formatter's output is `len/60 + 1` lines — one extra line is always
reserved, also when the length is an exact multiple of 60 — each line a
newline, `d` tabs, and up to 60 consecutive input bytes in order, followed
by one final newline and `d` tabs. -/
theorem claim_C6_formatter (buf : CStr) (hbuf : buf ≠ []) (d : Nat) :
    ∃ chunks : List CStr,
      chunks.length = buf.length / 60 + 1 ∧
      chunks.flatten = buf ∧
      (∀ c ∈ chunks, c.length ≤ 60) ∧
      format_string buf 60 d
        = (chunks.map (fun c => 10 :: (List.replicate d 9 ++ c))).flatten
          ++ 10 :: List.replicate d 9 :=
  format_string_spec buf d

/-- Witness for C6 at a concrete 120-byte input (an exact multiple of 60,
exercising the reserved extra line). -/
theorem claim_C6_formatter_witness :
    (List.replicate 120 65 : CStr) ≠ [] ∧
      ∃ chunks : List CStr,
        chunks.length = (List.replicate 120 65 : CStr).length / 60 + 1 ∧
        chunks.flatten = List.replicate 120 65 ∧
        (∀ c ∈ chunks, c.length ≤ 60) ∧
        format_string (List.replicate 120 65) 60 1
          = (chunks.map (fun c => 10 :: (List.replicate 1 9 ++ c))).flatten
            ++ 10 :: List.replicate 1 9 :=
  ⟨by decide, claim_C6_formatter (List.replicate 120 65) (by decide) 1⟩

/-- Claim C7: a Data node whose `length` field is zero is encoded as a
`data` element with no content at all, and the formatter is never invoked
with a zero-length input — on the non-zero path its argument, the base64
rendering of the payload, is non-empty. -/
theorem claim_C7_data_zero_length (d : PlistData) (cs : List GNode) (depth : Nat)
    (hdata : d.type = PlistType.PLIST_DATA) :
    (d.length = 0 → encodeElem (GNode.node d cs) depth = XmlNode.elem "data" []) ∧
    (d.length ≠ 0 → d.length ≤ d.buff.length →
      encodeElem (GNode.node d cs) depth
        = XmlNode.elem "data" (xmlStringGetNodeList
            (format_string (g_base64_encode (d.buff.take d.length)) 60 depth)) ∧
      (g_base64_encode (d.buff.take d.length)).length ≠ 0) := by
  constructor
  · intro h0
    simp [encodeElem, hdata, h0]
  · intro hne hle
    constructor
    · simp [encodeElem, hdata, hne]
    · have htk : d.buff.take d.length ≠ [] := by
        intro h
        have hl := congrArg List.length h
        rw [List.length_take] at hl
        rw [show ([] : List Nat).length = 0 from rfl] at hl
        omega
      have hnn := g_base64_encode_ne_nil _ htk
      intro hlen0
      exact hnn (List.length_eq_zero.mp hlen0)

/-- Witness for C7 at a concrete Data payload of three bytes. -/
theorem claim_C7_data_zero_length_witness :
    ({ type := PlistType.PLIST_DATA, buff := [1, 2, 3], length := 3 }
        : PlistData).type = PlistType.PLIST_DATA ∧
    (({ type := PlistType.PLIST_DATA, buff := [1, 2, 3], length := 3 } : PlistData).length = 0 →
      encodeElem (GNode.node { type := PlistType.PLIST_DATA, buff := [1, 2, 3], length := 3 } []) 0
        = XmlNode.elem "data" []) ∧
    (({ type := PlistType.PLIST_DATA, buff := [1, 2, 3], length := 3 } : PlistData).length ≠ 0 →
      ({ type := PlistType.PLIST_DATA, buff := [1, 2, 3], length := 3 } : PlistData).length
          ≤ ({ type := PlistType.PLIST_DATA, buff := [1, 2, 3], length := 3 } : PlistData).buff.length →
      encodeElem (GNode.node { type := PlistType.PLIST_DATA, buff := [1, 2, 3], length := 3 } []) 0
        = XmlNode.elem "data" (xmlStringGetNodeList
            (format_string (g_base64_encode
              (({ type := PlistType.PLIST_DATA, buff := [1, 2, 3], length := 3 }
                : PlistData).buff.take 3)) 60 0)) ∧
      (g_base64_encode (({ type := PlistType.PLIST_DATA, buff := [1, 2, 3], length := 3 }
          : PlistData).buff.take 3)).length ≠ 0) :=
  ⟨rfl, (claim_C7_data_zero_length _ [] 0 rfl).1,
    (claim_C7_data_zero_length _ [] 0 rfl).2⟩

/-- Claim C9: `array` and `dict` elements decode to a container node whose
children are the decoded non-text children in document order; in particular
a dict whose element children alternate key and value decodes to children in
the same strict alternating order. -/
theorem claim_C9_container_order :
    (∀ cs : List XmlNode, decodeElem (XmlNode.elem "array" cs)
        = GNode.node { type := PlistType.PLIST_ARRAY } (decodedKids cs)) ∧
    (∀ cs : List XmlNode, decodeElem (XmlNode.elem "dict" cs)
        = GNode.node { type := PlistType.PLIST_DICT } (decodedKids cs)) ∧
    (∀ cs : List XmlNode, decodedKids cs
        = (cs.filter (fun c => xmlName c ≠ "text")).map decodeElem) ∧
    (∀ kb vb : CStr,
      decodeElem (XmlNode.elem "dict"
          [XmlNode.elem "key" [XmlNode.text kb],
           XmlNode.elem "integer" [XmlNode.text vb],
           XmlNode.elem "key" [XmlNode.text kb],
           XmlNode.elem "true" []])
        = GNode.node { type := PlistType.PLIST_DICT }
            [GNode.node
              { type := PlistType.PLIST_KEY
                strval := some (cstr kb)
                length := (cstr kb).length } [],
             GNode.node
              { type := PlistType.PLIST_UINT
                intval := g_ascii_strtoull vb
                length := 8 } [],
             GNode.node
              { type := PlistType.PLIST_KEY
                strval := some (cstr kb)
                length := (cstr kb).length } [],
             GNode.node { type := PlistType.PLIST_BOOLEAN, boolval := true, length := 1 } []]) := by
  refine ⟨decodeElem_array, decodeElem_dict, decodedKids_eq_filter_map, ?_⟩
  intro kb vb
  rw [decodeElem_dict]
  simp [decodedKids, decodeElem, xmlName, getContentList, getContent]

/-- Claim C10: (a) when the decoder's out-parameter already holds a node,
every element it decodes at that level is appended as a child of that node;
(b) when it is null, the first decoded element becomes the root and every
following sibling element is appended as a child of that first element — so
a `plist` element with two value children yields the second value as a child
of the first, not as a sibling. -/
theorem claim_C10_out_param_threading :
    (∀ (n : String) (cs : List XmlNode) (d : PlistData) (k : List GNode),
      xmlToNode (XmlNode.elem n cs) (some (GNode.node d k))
        = some (GNode.node d (k ++ decodedKids cs))) ∧
    (∀ (n : String) (pre : List XmlNode), (∀ x ∈ pre, xmlName x = "text") →
      ∀ (c : XmlNode), xmlName c ≠ "text" → ∀ rest : List XmlNode,
        xmlToNode (XmlNode.elem n (pre ++ c :: rest)) none
          = some (GNode.node (decodeElem c).data
              ((decodeElem c).children ++ decodedKids rest))) ∧
    (∀ v1 v2 : CStr,
      xmlToNode (XmlNode.elem "plist"
          [XmlNode.elem "integer" [XmlNode.text v1],
           XmlNode.elem "integer" [XmlNode.text v2]]) none
        = some (GNode.node
            { type := PlistType.PLIST_UINT
              intval := g_ascii_strtoull v1
              length := 8 }
            [GNode.node
              { type := PlistType.PLIST_UINT
                intval := g_ascii_strtoull v2
                length := 8 } []])) := by
  refine ⟨?_, ?_, ?_⟩
  · intro n cs d k
    rw [show xmlToNode (XmlNode.elem n cs) (some (GNode.node d k))
        = foldChildren cs (some (GNode.node d k)) from by simp [xmlToNode]]
    exact foldChildren_some cs d k
  · intro n pre hpre c hc rest
    rw [show xmlToNode (XmlNode.elem n (pre ++ c :: rest)) none
        = foldChildren (pre ++ c :: rest) none from by simp [xmlToNode]]
    exact foldChildren_none_first pre hpre c hc rest
  · intro v1 v2
    have h := foldChildren_none_first []
      (by intro x hx; simp at hx)
      (XmlNode.elem "integer" [XmlNode.text v1]) (by simp [xmlName])
      [XmlNode.elem "integer" [XmlNode.text v2]]
    rw [List.nil_append] at h
    rw [show xmlToNode (XmlNode.elem "plist"
          [XmlNode.elem "integer" [XmlNode.text v1],
           XmlNode.elem "integer" [XmlNode.text v2]]) none
        = foldChildren
            [XmlNode.elem "integer" [XmlNode.text v1],
             XmlNode.elem "integer" [XmlNode.text v2]] none from by simp [xmlToNode]]
    rw [h]
    rw [show decodedKids [XmlNode.elem "integer" [XmlNode.text v2]]
        = [decodeElem (XmlNode.elem "integer" [XmlNode.text v2])] from by
      rw [decodedKids_cons_elem (by simp [xmlName])]
      rfl]
    simp [decodeElem, getContentList, getContent, GNode.data, GNode.children]

/-- Witness for C10 at a concrete accumulator and sibling list. -/
theorem claim_C10_out_param_threading_witness :
    xmlToNode (XmlNode.elem "plist" ([] ++ XmlNode.elem "true" [] :: [])) none
      = some (GNode.node (decodeElem (XmlNode.elem "true" [])).data
          ((decodeElem (XmlNode.elem "true" [])).children ++ decodedKids [])) :=
  claim_C10_out_param_threading.2.1 "plist" [] (by intro x hx; simp at hx)
    (XmlNode.elem "true" []) (by simp [xmlName]) []

/-- The tag names the decoder's dispatch recognises, in the order
`xml_to_node` tests them. -/
def recognizedTags : List String :=
  ["true", "false", "integer", "real", "date", "string", "key", "data", "array", "dict"]

/-- Counterexample to claim C2 as stated: decoding does create a tree node
for an unrecognised element.  A `plist` whose only element child has an
unknown tag decodes to a node (with nothing assigned) rather than to no
node, and an unknown tag in sibling position contributes a node, so an
`array` with an unknown first child and `true` second child has two
children, not one. -/
theorem claim_C2_counterexample :
    xmlToNode (XmlNode.elem "plist" [XmlNode.elem "bogustag" []]) none
      = some (GNode.node {} []) ∧
    (decodeElem (XmlNode.elem "array"
        [XmlNode.elem "bogustag" [], XmlNode.elem "true" []])).children.length = 2 := by
  constructor
  · simp [xmlToNode, foldChildren, decodeElem, xmlName]
  · simp [decodeElem, foldChildren, xmlName, GNode.children]

/-- Claim C2 as amended: for every element whose tag is not one of the
recognised plist tags, the decoder creates and appends a node whose payload
is left entirely unassigned (the allocation default, no kind, no children,
no error), and decoding of the following siblings continues unaffected. -/
theorem claim_C2_unknown_tag (name : String) (hname : name ∉ recognizedTags)
    (hntext : name ≠ "text") (cs : List XmlNode) :
    decodeElem (XmlNode.elem name cs) = GNode.node {} [] ∧
    (∀ (rest : List XmlNode) (d : PlistData) (k : List GNode),
      foldChildren (XmlNode.elem name cs :: rest) (some (GNode.node d k))
        = foldChildren rest (some (GNode.node d (k ++ [GNode.node {} []])))) := by
  have hdec : decodeElem (XmlNode.elem name cs) = GNode.node {} [] := by
    simp only [recognizedTags, List.mem_cons, not_or] at hname
    obtain ⟨h1, h2, h3, h4, h5, h6, h7, h8, h9, h10, _⟩ := hname
    simp [decodeElem, h1, h2, h3, h4, h5, h6, h7, h8, h9, h10]
  refine ⟨hdec, ?_⟩
  intro rest d k
  rw [show foldChildren (XmlNode.elem name cs :: rest) (some (GNode.node d k))
      = foldChildren rest (some (GNode.node d (k ++ [decodeElem (XmlNode.elem name cs)])))
    from by simp [foldChildren, xmlName, hntext]]
  rw [hdec]

/-- Witness for the amended C2 at a concrete unknown tag. -/
theorem claim_C2_unknown_tag_witness :
    decodeElem (XmlNode.elem "frobnicate" []) = GNode.node {} [] ∧
    (∀ (rest : List XmlNode) (d : PlistData) (k : List GNode),
      foldChildren (XmlNode.elem "frobnicate" [] :: rest) (some (GNode.node d k))
        = foldChildren rest (some (GNode.node d (k ++ [GNode.node {} []])))) :=
  claim_C2_unknown_tag "frobnicate" (by decide) (by decide) []

/-- Counterexample to claim C4 as stated, at content bytes `FE FF 41` (a
UTF-16BE byte-order mark followed by `A`): the detected encoding is
UTF-16BE — not UTF-8/ASCII/unspecified — yet a `key` element's payload IS
assigned (the claim says keys are checked and left without payload), and a
`string` element's node is left with NO kind at all (the claim says a node
with kind String is created). -/
theorem claim_C4_counterexample :
    xmlDetectCharEncoding [254, 255, 65] = XML_CHAR_ENCODING_UTF16BE ∧
    (decodeElem (XmlNode.elem "key" [XmlNode.text [254, 255, 65]])).data.strval
      = some [254, 255, 65] ∧
    (decodeElem (XmlNode.elem "string" [XmlNode.text [254, 255, 65]])).data.type
      = PlistType.PLIST_NONE ∧
    (decodeElem (XmlNode.elem "string" [XmlNode.text [254, 255, 65]])).data.strval
      = none := by
  refine ⟨by decide, ?_, ?_, ?_⟩ <;>
    simp [decodeElem, getContentList, getContent, GNode.data, cstr, xmlDetectCharEncoding]

/-- Claim C4 as amended: only `string` elements get the character-encoding
check — when the detected encoding is not UTF-8/ASCII/unspecified the
freshly created node is left with neither kind nor payload assigned — while
`key` elements are decoded without any encoding detection, their payload
always assigned from the (NUL-truncated) text content. -/
theorem claim_C4_encoding_check (bs : CStr) :
    (xmlDetectCharEncoding (cstr bs) ≠ XML_CHAR_ENCODING_UTF8 →
     xmlDetectCharEncoding (cstr bs) ≠ XML_CHAR_ENCODING_ASCII →
     xmlDetectCharEncoding (cstr bs) ≠ XML_CHAR_ENCODING_NONE →
     decodeElem (XmlNode.elem "string" [XmlNode.text bs]) = GNode.node {} []) ∧
    decodeElem (XmlNode.elem "key" [XmlNode.text bs])
      = GNode.node
          { type := PlistType.PLIST_KEY
            strval := some (cstr bs)
            length := (cstr bs).length } [] := by
  have hcontent : getContentList [XmlNode.text bs] = bs := by
    simp [getContentList, getContent]
  constructor
  · intro h1 h2 h3
    simp [decodeElem, hcontent, h1, h2, h3]
  · simp [decodeElem, hcontent]

/-- Witness for the amended C4, discharging the non-UTF-8 hypotheses at the
concrete content `FE FF 41`. -/
theorem claim_C4_encoding_check_witness :
    decodeElem (XmlNode.elem "string" [XmlNode.text [254, 255, 65]]) = GNode.node {} [] :=
  (claim_C4_encoding_check [254, 255, 65]).1 (by decide) (by decide) (by decide)

/-- Counterexample to claim C8 as stated: malformed integer content does not
always parse to 0.  `"12abc"` (bytes `49 50 97 98 99`) parses to its longest
numeric prefix 12, and `"-1"` (bytes `45 49`) wraps to `2^64 - 1`. -/
theorem claim_C8_counterexample :
    (decodeElem (XmlNode.elem "integer" [XmlNode.text [49, 50, 97, 98, 99]])).data.intval
      = 12 ∧
    (decodeElem (XmlNode.elem "integer" [XmlNode.text [45, 49]])).data.intval
      = 2 ^ 64 - 1 := by
  constructor <;>
    · simp [decodeElem, getContentList, getContent, GNode.data]
      decide

/-- Claim C8 as amended: integer content is parsed as an unsigned 64-bit
value with automatic base detection — plain decimal and `0x`-prefixed
hexadecimal are accepted — by consuming the longest leading numeric prefix
after optional whitespace and sign; content with no parseable numeric prefix
yields the value 0; in every case a UnsignedInteger node is produced and no
error is raised. -/
theorem claim_C8_integer_parse :
    (∀ n : Nat, n < 2 ^ 64 →
      decodeElem (XmlNode.elem "integer" [XmlNode.text (natDecimal n)])
        = GNode.node { type := PlistType.PLIST_UINT, intval := n, length := 8 } []) ∧
    (∀ n : Nat, n < 2 ^ 64 →
      decodeElem (XmlNode.elem "integer" [XmlNode.text (48 :: 120 :: natHex n)])
        = GNode.node { type := PlistType.PLIST_UINT, intval := n, length := 8 } []) ∧
    (∀ (bs : CStr) (b : Nat) (r : CStr), bs.dropWhile isSpaceB = b :: r →
      b ≠ 45 → b ≠ 43 → digitValIn 10 b = none →
      decodeElem (XmlNode.elem "integer" [XmlNode.text bs])
        = GNode.node { type := PlistType.PLIST_UINT, intval := 0, length := 8 } []) ∧
    (∀ (n : Nat) (junk : CStr), n < 2 ^ 64 → 0 < n →
      decodeElem (XmlNode.elem "integer" [XmlNode.text (natDecimal n ++ 97 :: junk)])
        = GNode.node { type := PlistType.PLIST_UINT, intval := n, length := 8 } []) := by
  have hcontent : ∀ bs : CStr, getContentList [XmlNode.text bs] = bs := by
    intro bs
    simp [getContentList, getContent]
  refine ⟨?_, ?_, ?_, ?_⟩
  · intro n hn
    simp [decodeElem, hcontent, strtoull_natDecimal n hn]
  · intro n hn
    simp [decodeElem, hcontent, strtoull_hex n hn]
  · intro bs b r hdrop h45 h43 hdig
    simp [decodeElem, hcontent, strtoull_no_numeric_prefix hdrop h45 h43 hdig]
  · intro n junk hn hpos
    obtain ⟨b, tl, hcons, hb1, hb2⟩ := natDecimal_head_pos hpos
    have hsome : ∀ x ∈ b :: tl, (digitValIn 10 x).isSome = true := by
      intro x hx
      have := natDecimal_mem x (hcons ▸ hx)
      exact digitValIn10_digit this.1 this.2
    have h97 : digitValIn 10 97 = none := by decide
    have hval : g_ascii_strtoull (natDecimal n ++ 97 :: junk) = n := by
      rw [hcons, List.cons_append]
      unfold g_ascii_strtoull
      rw [List.dropWhile_cons, if_neg (by simp [isSpaceB]; omega)]
      unfold strtoullFinish
      rw [if_neg (by simp; omega), if_neg (by simp; omega)]
      rw [strtoullBody_not48 (by omega) (tl ++ 97 :: junk)]
      rw [show (b :: (tl ++ 97 :: junk) : CStr) = (b :: tl) ++ 97 :: junk from by simp]
      rw [parseNum_append (b :: tl) hsome (97 :: junk) 0]
      rw [show parseNum 10 (b :: tl) 0 = n from by rw [← hcons]; exact natDecimal_parse n]
      rw [parseNum_cons_invalid h97]
      unfold strtoullClamp
      rw [if_neg (by omega)]
      rfl
    simp [decodeElem, hcontent, hval]

/-- Witness for the amended C8 at concrete decimal, hexadecimal, no-prefix
and prefix-with-junk inputs. -/
theorem claim_C8_integer_parse_witness :
    decodeElem (XmlNode.elem "integer" [XmlNode.text (natDecimal 42)])
      = GNode.node { type := PlistType.PLIST_UINT, intval := 42, length := 8 } [] ∧
    decodeElem (XmlNode.elem "integer" [XmlNode.text (48 :: 120 :: natHex 255)])
      = GNode.node { type := PlistType.PLIST_UINT, intval := 255, length := 8 } [] ∧
    decodeElem (XmlNode.elem "integer" [XmlNode.text [104, 105]])
      = GNode.node { type := PlistType.PLIST_UINT, intval := 0, length := 8 } [] :=
  ⟨claim_C8_integer_parse.1 42 (by decide),
   claim_C8_integer_parse.2.1 255 (by decide),
   claim_C8_integer_parse.2.2.1 [104, 105] 104 [105] (by decide) (by decide) (by decide)
     (by decide)⟩

/-- Claim C3, evaluated at the failing input (a Key whose payload is the
five bytes of the literal text `&amp;`): the encoder emits String content
through `xmlNewTextChild` — stored raw, hence escaped on the wire and
round-tripping — but Key content through `xmlNewChild`, which treats the
payload as already-escaped markup and substitutes the entity reference, so
the stored content collapses to `&` and the Key does not round-trip, while
a String with the identical payload does. -/
theorem claim_C3_key_unescaped :
    encodeElem (GNode.node
        { type := PlistType.PLIST_KEY, strval := some [38, 97, 109, 112, 59] } []) 0
      = XmlNode.elem "key" [XmlNode.text [38]] ∧
    encodeElem (GNode.node
        { type := PlistType.PLIST_STRING, strval := some [38, 97, 109, 112, 59] } []) 0
      = XmlNode.elem "string" [XmlNode.text [38, 97, 109, 112, 59]] ∧
    (decodeElem (encodeElem (GNode.node
        { type := PlistType.PLIST_KEY, strval := some [38, 97, 109, 112, 59] } []) 0)).data.strval
      = some [38] ∧
    (decodeElem (encodeElem (GNode.node
        { type := PlistType.PLIST_STRING, strval := some [38, 97, 109, 112, 59] } []) 0)).data.strval
      = some [38, 97, 109, 112, 59] := by
  refine ⟨?_, ?_, ?_, ?_⟩ <;>
    simp [encodeElem, decodeElem, xmlStringGetNodeList, substEntities, substEntitiesF,
      getContentList, getContent, cstr, GNode.data, xmlDetectCharEncoding]

/-- Counterexample to claim C1 as stated: a value tree built only from
supported kinds — a single Key node whose payload is the literal text
`&amp;` — decodes from the encoder's output to a Key holding `&`, which is
not structurally equal to the original tree. -/
theorem claim_C1_counterexample :
    (plist_from_xml (plistDocRoot (GNode.node
        { type := PlistType.PLIST_KEY, strval := some [38, 97, 109, 112, 59], length := 5 }
        [])) none).isSome = true ∧
    structEq
      (GNode.node
        { type := PlistType.PLIST_KEY, strval := some [38, 97, 109, 112, 59], length := 5 } [])
      ((plist_from_xml (plistDocRoot (GNode.node
          { type := PlistType.PLIST_KEY, strval := some [38, 97, 109, 112, 59], length := 5 }
          [])) none).getD (GNode.node {} []))
      = false := by
  have h : plist_from_xml (plistDocRoot (GNode.node
      { type := PlistType.PLIST_KEY, strval := some [38, 97, 109, 112, 59], length := 5 }
      [])) none
      = some (GNode.node
          { type := PlistType.PLIST_KEY, strval := some [38], length := 1 } []) := by
    simp [plist_from_xml, xmlToNode, plistDocRoot, nodeToXml, foldChildren, xmlName,
      encodeElem, decodeElem, xmlStringGetNodeList, substEntities, substEntitiesF,
      getContentList, getContent, cstr, tabs]
  rw [h]
  constructor
  · rfl
  · simp [structEq, structEqList, dataEq]

/-- Claim C1 as amended: for every value tree of the supported kinds that
satisfies the C representation invariants (kinds assigned; string/key
payloads present as NUL-free C strings, strings valid UTF-8; `intval` within
64 bits; `length` consistent with the data buffer; scalars childless) and
whose Key payloads contain no `&` byte — the restriction the unescaped-key
counterexample forces — decoding the encoder's output yields a tree
structurally equal to the input, Reals compared with the 6-digit fixed-point
rounding tolerance. -/
theorem claim_C1_roundtrip (g : GNode) (hwf : wfNode g = true) :
    ∃ g2, plist_from_xml (plistDocRoot g) none = some g2 ∧ structEq g g2 = true :=
  plist_roundtrip g hwf

/-- Witness for the amended C1 at a concrete nested tree exercising every
supported kind: a Dict of a Key, a String containing `<` and `&`, a second
Key, and an Array holding a Boolean, an UnsignedInteger, a Real, a Data
payload and a Date. -/
theorem claim_C1_roundtrip_witness :
    wfNode (GNode.node { type := PlistType.PLIST_DICT }
      [GNode.node { type := PlistType.PLIST_KEY, strval := some [107], length := 1 } [],
       GNode.node
        { type := PlistType.PLIST_STRING
          strval := some [60, 38, 118]
          length := 3 } [],
       GNode.node { type := PlistType.PLIST_KEY, strval := some [100], length := 1 } [],
       GNode.node { type := PlistType.PLIST_ARRAY }
        [GNode.node { type := PlistType.PLIST_BOOLEAN, boolval := true, length := 1 } [],
         GNode.node { type := PlistType.PLIST_UINT, intval := 42, length := 8 } [],
         GNode.node { type := PlistType.PLIST_REAL, realval := 3 / 2, length := 8 } [],
         GNode.node { type := PlistType.PLIST_DATA, buff := [0, 255, 10], length := 3 } [],
         GNode.node
          { type := PlistType.PLIST_DATE
            tv_sec := 5
            tv_usec := 7
            length := 16 } []]]) = true ∧
    ∃ g2, plist_from_xml (plistDocRoot (GNode.node { type := PlistType.PLIST_DICT }
      [GNode.node { type := PlistType.PLIST_KEY, strval := some [107], length := 1 } [],
       GNode.node
        { type := PlistType.PLIST_STRING
          strval := some [60, 38, 118]
          length := 3 } [],
       GNode.node { type := PlistType.PLIST_KEY, strval := some [100], length := 1 } [],
       GNode.node { type := PlistType.PLIST_ARRAY }
        [GNode.node { type := PlistType.PLIST_BOOLEAN, boolval := true, length := 1 } [],
         GNode.node { type := PlistType.PLIST_UINT, intval := 42, length := 8 } [],
         GNode.node { type := PlistType.PLIST_REAL, realval := 3 / 2, length := 8 } [],
         GNode.node { type := PlistType.PLIST_DATA, buff := [0, 255, 10], length := 3 } [],
         GNode.node
          { type := PlistType.PLIST_DATE
            tv_sec := 5
            tv_usec := 7
            length := 16 } []]])) none = some g2 ∧
      structEq (GNode.node { type := PlistType.PLIST_DICT }
      [GNode.node { type := PlistType.PLIST_KEY, strval := some [107], length := 1 } [],
       GNode.node
        { type := PlistType.PLIST_STRING
          strval := some [60, 38, 118]
          length := 3 } [],
       GNode.node { type := PlistType.PLIST_KEY, strval := some [100], length := 1 } [],
       GNode.node { type := PlistType.PLIST_ARRAY }
        [GNode.node { type := PlistType.PLIST_BOOLEAN, boolval := true, length := 1 } [],
         GNode.node { type := PlistType.PLIST_UINT, intval := 42, length := 8 } [],
         GNode.node { type := PlistType.PLIST_REAL, realval := 3 / 2, length := 8 } [],
         GNode.node { type := PlistType.PLIST_DATA, buff := [0, 255, 10], length := 3 } [],
         GNode.node
          { type := PlistType.PLIST_DATE
            tv_sec := 5
            tv_usec := 7
            length := 16 } []]]) g2 = true := by
  have hwf : wfNode (GNode.node { type := PlistType.PLIST_DICT }
      [GNode.node { type := PlistType.PLIST_KEY, strval := some [107], length := 1 } [],
       GNode.node
        { type := PlistType.PLIST_STRING
          strval := some [60, 38, 118]
          length := 3 } [],
       GNode.node { type := PlistType.PLIST_KEY, strval := some [100], length := 1 } [],
       GNode.node { type := PlistType.PLIST_ARRAY }
        [GNode.node { type := PlistType.PLIST_BOOLEAN, boolval := true, length := 1 } [],
         GNode.node { type := PlistType.PLIST_UINT, intval := 42, length := 8 } [],
         GNode.node { type := PlistType.PLIST_REAL, realval := 3 / 2, length := 8 } [],
         GNode.node { type := PlistType.PLIST_DATA, buff := [0, 255, 10], length := 3 } [],
         GNode.node
          { type := PlistType.PLIST_DATE
            tv_sec := 5
            tv_usec := 7
            length := 16 } []]]) = true := by
    simp [wfNode, wfList, utf8Valid, utf8ValidAux, isContB]
  exact ⟨hwf, claim_C1_roundtrip _ hwf⟩
